import Mathlib

/-!
# The Moraf watch system of fe-scaffolding (`src/src/moraf/moraf.js`)

A shallow embedding of the `Moraf` / `MorafManager` / `Observer` classes.

Modelling conventions.

* The host document is an oracle `Doc`: each evaluation of a request reads the
  document through it. A DOM node is its identity, a natural number.
* A JavaScript value that may be `undefined` is an `Option`.
* `element.attributes[name]` is the `Attr` node of the attribute, or `undefined`
  when the node has no such attribute. An `Attr` node keeps its identity while
  the attribute stays on the element (`setAttribute` changes its value), and
  an attribute that is removed and set again gets a new node. The snapshot of
  a request holds references to these nodes; only `element.href` is a string.
* A callback is an identity; invoking it is recorded (request, callback,
  payload) in the ghost field `State.calls`. Whatever a callback does to the
  document is covered by the document oracle handed to the evaluations that
  follow. In `Moraf.new` and in the runs of `run` every callback is a function
  that leaves the watch system alone. The section "Callbacks that throw or
  construct requests" follows the constructors statement by statement, with
  what `callback.apply` does as a parameter (`Moraf.newWith`); the two agree
  for a callback that leaves the watch system alone (`moraf_newWith_inert`).
* A thrown `TypeError` is an explicit flag next to the state reached when it is
  thrown.
* The host primitives (`MutationObserver.observe`, `setInterval`,
  `requestAnimationFrame`) do not throw. The native `MutationObserver.observe`
  does throw when its options are `undefined`, which is the case only for a
  request of an unknown kind; what is stated about such requests is stated on
  the fallback path, where `observe` is `setInterval`.
-/

namespace FeScaffolding

/-- A DOM node, by identity. -/
abbrev Node := Nat

/-! ## Strings -/

/-- Whether the characters `needle` open the character list `hay`. -/
def startsWith : List Char → List Char → Bool
  | [], _ => true
  | _ :: _, [] => false
  | a :: as, b :: bs => a == b && startsWith as bs

/-- Whether `needle` occurs in `hay` as a contiguous run. -/
def includesChars (needle : List Char) : List Char → Bool
  | [] => startsWith needle []
  | c :: cs => startsWith needle (c :: cs) || includesChars needle cs

/-- JavaScript `hay.indexOf(needle) > -1` for two strings. -/
def jsIncludes (hay needle : String) : Bool :=
  includesChars needle.toList hay.toList

/-! ## Conditions -/

/-- One condition: a string or a `RegExp` (its source and flags). -/
inductive Cond where
  | str (s : String)
  | regExp (source flags : String)
deriving DecidableEq, Repr

/-- What `String(c)` is: `indexOf` converts its argument to a string, and a
`RegExp` converts to its literal form `/source/flags`. -/
def Cond.toJsString : Cond → String
  | .str s => s
  | .regExp source flags => "/" ++ source ++ "/" ++ flags

/-- JavaScript truthiness of a condition: only the empty string is falsy. -/
def Cond.truthy : Cond → Bool
  | .str s => !(s == "")
  | .regExp _ _ => true

/-- The `conditions` field of a request: `undefined`, one string or `RegExp`,
or an array whose entries may be missing. -/
inductive Conditions where
  | undefined
  | single (c : Cond)
  | array (cs : List (Option Cond))
deriving DecidableEq, Repr

/-- The truthy value of `conditions[index]`, if there is one. The outer `none`
is the `TypeError` of indexing `undefined`; `some none` is a falsy entry
(missing, or the empty string). Indexing a string gives its character at that
place (a character is a code point here and a UTF-16 code unit in JavaScript:
the two agree on strings of the Basic Multilingual Plane); indexing a `RegExp`
gives `undefined`. -/
def Conditions.lookup : Conditions → Nat → Option (Option Cond)
  | .undefined, _ => none
  | .single (.str s), index =>
      some ((s.toList[index]?).map fun c => Cond.str (String.mk [c]))
  | .single (.regExp _ _), _ => some none
  | .array cs, index =>
      match cs[index]? with
      | some (some c) => some (if c.truthy then some c else none)
      | _ => some none

/-- JavaScript truthiness of the whole `conditions` value (arrays and `RegExp`s
are truthy, `undefined` and the empty string are not). -/
def Conditions.truthy : Conditions → Bool
  | .undefined => false
  | .single c => c.truthy
  | .array _ => true

/-- What `String(conditions)` is: an array converts to its entries joined by
commas, a missing entry converting to the empty string. -/
def Conditions.toJsString : Conditions → String
  | .undefined => "undefined"
  | .single c => c.toJsString
  | .array cs => ",".intercalate (cs.map fun c => (c.map Cond.toJsString).getD "")

/-! ## The host document -/

/-- An `Attr` node as the document shows it at one moment: the identity of the
node and the value of the attribute. -/
structure Attr where
  id : Nat
  value : String
deriving DecidableEq, Repr

/-- What one evaluation reads from the host document. -/
structure Doc where
  /-- The descendants of a node matching a selector, in document order:
  `element.querySelectorAll(selector)`, or `$element.find(selector)`, for a
  selector the host accepts. -/
  query : Node → String → List Node
  /-- Whether `element.attributes` is defined (it is not on a document node). -/
  hasAttributes : Node → Bool
  /-- The `Attr` node `element.attributes[name]`, if the element has the
  attribute. -/
  attr : Node → String → Option Attr
  /-- The `href` property of the node. -/
  href : Node → Option String
  /-- The value of `element.textContent`, a string for every element and
  text node (it is `null` on a document node, which no text watch of this
  development is put on). -/
  textContent : Node → String

/-! ## Watch requests -/

/-- The `type` of a request; `other` is any string but the three known ones. -/
inductive Kind where
  | create
  | change
  | text
  | other (name : String)
deriving DecidableEq, Repr

/-- The options object handed to `MutationObserver.observe`. -/
structure Init where
  childList : Bool := false
  subtree : Bool := false
  attributes : Bool := false
  characterData : Bool := false
deriving DecidableEq, Repr

/-- A JavaScript value as `getAttributeMap` stores it: `undefined`, a reference
to an `Attr` node (the node's identity), or a string. Two entries are `===`
when they are the same constructor with the same identity or the same
characters. -/
inductive Entry where
  | undefined
  | attrNode (id : Nat)
  | string (s : String)
deriving DecidableEq, Repr

/-- A JavaScript object used as a map from attribute names to values: the
latest binding of a name is the first one in the list. -/
abbrev AttributeMap := List (String × Entry)

/-- The value of `map[name]`: `undefined` when the name is not bound. -/
def AttributeMap.get (map : AttributeMap) (name : String) : Entry :=
  (map.lookup name).getD .undefined

/-- The map after `map[name] = value`. -/
def AttributeMap.set (map : AttributeMap) (name : String) (value : Entry) :
    AttributeMap :=
  (name, value) :: map

/-- The `data` object given to the `Moraf` constructor. A key that the object
lacks is `none` (or empty, for `selector` and `attributes`, which are only read
by the kind that has them). `attributes` is an array here: arrays, the empty
one included, are truthy. -/
structure MorafData where
  type : Kind
  element : Node
  callback : Nat
  multi : Option Bool := none
  selector : String := ""
  attributes : List String := []
  conditions : Conditions := .undefined
  text : Option String := none
deriving DecidableEq, Repr

/-- A `Moraf` instance: the keys copied from `data`, and the fields the
constructor and `onMutate` maintain. `manager` is the index of the owning
`MorafManager` in `allManagers`. -/
structure Moraf where
  type : Kind
  element : Node
  callback : Nat
  multi : Option Bool
  selector : String
  attributes : List String
  conditions : Conditions
  text : Option String
  init : Option Init
  processed : List Node
  attributeMap : AttributeMap
  active : Bool
  manager : Option Nat
deriving DecidableEq, Repr

/-- JavaScript `!multi`: true unless `multi` is `true`. -/
def notMulti (multi : Option Bool) : Bool :=
  !(multi == some true)

/-- JavaScript truthiness of `element.href`. -/
def hrefTruthy : Option String → Bool
  | some s => !(s == "")
  | none => false

/-- The value of `elemAttrs[name]`: a reference to the `Attr` node, or
`undefined`. -/
def attrEntry (doc : Doc) (element : Node) (name : String) : Entry :=
  match doc.attr element name with
  | some a => .attrNode a.id
  | none => .undefined

/-- The value of `element.href` when it is truthy. -/
def hrefEntry (doc : Doc) (element : Node) : Entry :=
  match doc.href element with
  | some s => .string s
  | none => .undefined

/-- The method `Moraf.getAttributeMap`: for every watched name the map gets
`elemAttrs[name]`, the `Attr` node, except that `href` gets the `href` property
of the element when that is set. Since `attributes` is an array, `!attributes`
is false and `typeof(attributes.href)` is not `'string'`. -/
def getAttributeMap (doc : Doc) (element : Node) (attributes : List String) :
    AttributeMap :=
  if doc.hasAttributes element then
    attributes.foldl
      (fun map name =>
        if name = "href" ∧ hrefTruthy (doc.href element) = true then
          map.set name (hrefEntry doc element)
        else map.set name (attrEntry doc element name))
      []
  else []

/-- How the attribute loop of `onMutate` ends: it runs through, it breaks after
invoking the callback, or it throws. -/
inductive Scan where
  | done
  | fire
  | threw
deriving DecidableEq, Repr

/-- The `for` loop of the `CHANGE` case of `Moraf.onMutate`, from `index` on
(`names` are the attribute names that remain). `oldValue !== newValue`
compares two entries: `Attr` nodes by identity, strings by their characters.
`newValue.indexOf` exists only on a string; on an `Attr` node or on `undefined`
the call throws a `TypeError`. -/
def scanAttributes (attributeMap newAttributes : AttributeMap) (conditions : Conditions) :
    List String → Nat → Scan
  | [], _ => .done
  | name :: rest, index =>
      let oldValue := attributeMap.get name
      let newValue := newAttributes.get name
      if oldValue ≠ newValue then
        match conditions.lookup index with
        | none => .threw
        | some (some c) =>
            -- newValue.indexOf(conditions[index]): only a string has `indexOf`
            match newValue with
            | .string v =>
                if jsIncludes v c.toJsString then .fire
                else scanAttributes attributeMap newAttributes conditions rest (index + 1)
            | _ => .threw
        | some none => .fire
      else scanAttributes attributeMap newAttributes conditions rest (index + 1)

/-- What one call of `Moraf.onMutate` does: the request afterwards, the payload
handed to the callback if it was invoked, and whether the call threw. -/
structure Eval where
  moraf : Moraf
  fired : Option (List Node)
  threw : Bool
deriving DecidableEq, Repr

/-- The method `Moraf.onMutate`. In the `CREATE` case the jQuery branch
(`find(selector).not(processed)`) and the native branch (`querySelectorAll`
filtered by the processed set) both keep the matches that are not processed. -/
def Moraf.onMutate (doc : Doc) (m : Moraf) : Eval :=
  match m.type with
  | .create =>
      let created := (doc.query m.element m.selector).filter fun x => !(m.processed.contains x)
      if created.length ≠ 0 then
        { moraf := { m with
            processed := m.processed ++ created
            active := if notMulti m.multi then false else m.active }
          fired := some created
          threw := false }
      else { moraf := m, fired := none, threw := false }
  | .change =>
      let newAttributes := getAttributeMap doc m.element m.attributes
      match scanAttributes m.attributeMap newAttributes m.conditions m.attributes 0 with
      | .threw => { moraf := m, fired := none, threw := true }
      | .fire =>
          { moraf := { m with
              active := if notMulti m.multi then false else m.active
              attributeMap := newAttributes }
            fired := some [m.element]
            threw := false }
      | .done =>
          { moraf := { m with attributeMap := newAttributes }, fired := none, threw := false }
  | .text =>
      let newText := doc.textContent m.element
      if some newText ≠ m.text ∧
          (m.conditions.truthy = false ∨ jsIncludes newText m.conditions.toJsString = true) then
        { moraf := { m with
            active := if notMulti m.multi then false else m.active
            text := some newText }
          fired := some [m.element]
          threw := false }
      else { moraf := { m with text := some newText }, fired := none, threw := false }
  | .other _ => { moraf := m, fired := none, threw := false }

/-- The `Moraf` constructor up to `this.active = true`: the keys of `data`, the
observer options of the kind, and the kind's initial state. -/
def Moraf.ofData (doc : Doc) (data : MorafData) : Moraf :=
  { type := data.type
    element := data.element
    callback := data.callback
    multi := data.multi
    selector := data.selector
    attributes := data.attributes
    conditions := data.conditions
    text := data.text
    init :=
      match data.type with
      | .create => some { childList := true, subtree := true }
      | .change => some { attributes := true }
      | .text => some { childList := true, characterData := true, subtree := true }
      | .other _ => none
    processed := []
    attributeMap :=
      match data.type with
      | .change => getAttributeMap doc data.element data.attributes
      | _ => []
    active := true
    manager := none }

/-! ## Observation handles -/

/-- The class `Observer`. With the native primitive, `connected` says whether
the `MutationObserver` is observing. On the fallback path `observer` is the
field `this.observer`, the id of the interval started last (`null` before the
first `observe`), and `timers` are the ids of the intervals this handle started
that have not been cleared: each of them calls the callback every 50 ms. -/
structure Observer where
  connected : Bool := false
  observer : Option Nat := none
  timers : List Nat := []
deriving DecidableEq, Repr

/-- The method `Observer.observe`; `fresh` is the id `setInterval` returns. -/
def Observer.observe (native : Bool) (fresh : Nat) (o : Observer) : Observer :=
  if native then { o with connected := true }
  else { o with observer := some fresh, timers := fresh :: o.timers }

/-- The method `Observer.disconnect`: `clearInterval` ends the interval whose
id is in `this.observer` and leaves the field as it is. -/
def Observer.disconnect (native : Bool) (o : Observer) : Observer :=
  if native then { o with connected := false }
  else
    match o.observer with
    | some id => { o with timers := o.timers.erase id }
    | none => o

/-- Whether the handle can still call its callback. -/
def Observer.live (native : Bool) (o : Observer) : Bool :=
  if native then o.connected else !o.timers.isEmpty

/-! ## Observation groups and the registry -/

/-- A `MorafManager` instance; `morafs` holds indices into `allMorafs`. -/
structure MorafManager where
  element : Node
  type : Kind
  init : Option Init
  active : Bool
  morafs : List Nat
  observer : Option Observer
deriving DecidableEq, Repr

/-- One invocation of a callback (ghost): the index of the request, the
callback and the payload. -/
structure Call where
  moraf : Nat
  callback : Nat
  payload : List Node
deriving DecidableEq, Repr

/-- The module state: `allManagers`, `allMorafs`, the two counters, the number
of frame callbacks requested and not yet run, the number of interval ids the
host has handed out, and the ghost list of callback invocations. -/
structure State where
  allManagers : List MorafManager := []
  allMorafs : List Moraf := []
  mutationCount : Nat := 0
  rafCount : Nat := 0
  frames : Nat := 0
  timerIds : Nat := 0
  calls : List Call := []
deriving DecidableEq, Repr

/-- The list with `f` applied at index `k` (unchanged when there is none). -/
def updateAt {α : Type} (l : List α) (k : Nat) (f : α → α) : List α :=
  match l[k]? with
  | some a => l.set k (f a)
  | none => l

/-- The ghost record of an evaluation of request `i`. -/
def callsOf (i : Nat) (callback : Nat) : Option (List Node) → List Call
  | some payload => [{ moraf := i, callback := callback, payload := payload }]
  | none => []

/-- A call `moraf.onMutate()` on the request at index `i`: the request is
replaced by its state after the call and the invocation, if any, is recorded.
The flag says whether the call threw. -/
def evalMoraf (doc : Doc) (i : Nat) (s : State) : State × Bool :=
  match s.allMorafs[i]? with
  | none => (s, false)
  | some m =>
      let r := m.onMutate doc
      ({ s with
          allMorafs := s.allMorafs.set i r.moraf
          calls := s.calls ++ callsOf i m.callback r.fired }, r.threw)

/-- The id the next `setInterval` returns (ids are positive). -/
def freshTimer (s : State) : Nat := s.timerIds + 1

/-- The method `MorafManager.observe` on the manager at index `k`:
`this.observer.observe(this.element, this.init)`. It throws when the manager
has no observer. -/
def MorafManager.observe (native : Bool) (k : Nat) (s : State) : State × Bool :=
  match s.allManagers[k]? with
  | none => (s, false)
  | some g =>
      match g.observer with
      | none => (s, true)
      | some o =>
          ({ s with
              allManagers :=
                s.allManagers.set k { g with observer := some (o.observe native (freshTimer s)) }
              timerIds := if native then s.timerIds else freshTimer s }, false)

/-- The constructor `new MorafManager(element, moraf)` for the request at
index `i`, which is already in `allMorafs`. -/
def MorafManager.new (native : Bool) (doc : Doc) (i : Nat) (s : State) : State :=
  match s.allMorafs[i]? with
  | none => s
  | some m0 =>
      -- if(moraf.type === CREATE) moraf.onMutate();
      let s1 := if m0.type = .create then (evalMoraf doc i s).1 else s
      match s1.allMorafs[i]? with
      | none => s1
      | some m =>
          let g : MorafManager :=
            { element := m.element, type := m.type, init := m.init, active := false,
              morafs := [i], observer := none }
          let fresh := freshTimer s1
          let g1 : MorafManager :=
            if m.active then
              { g with
                observer := some (Observer.observe native fresh {})
                active := true }
            else g
          { s1 with
            allManagers := s1.allManagers ++ [g1]
            timerIds := if m.active ∧ native = false then fresh else s1.timerIds }

/-- The method `MorafManager.add` of the manager at index `k` for the request
at index `i`. -/
def MorafManager.add (native : Bool) (doc : Doc) (k i : Nat) (s : State) : State :=
  match s.allMorafs[i]? with
  | none => s
  | some m0 =>
      -- if(moraf.type === CREATE) moraf.onMutate();
      let s1 := if m0.type = .create then (evalMoraf doc i s).1 else s
      -- this.morafs.push(moraf);
      let s2 :=
        { s1 with
          allManagers := updateAt s1.allManagers k fun g => { g with morafs := g.morafs ++ [i] } }
      match s2.allMorafs[i]? with
      | none => s2
      | some m =>
          if m.active then
            -- this.observer = this.observer || new Observer(...); this.observe();
            let s3 :=
              { s2 with
                allManagers := updateAt s2.allManagers k fun g =>
                  { g with observer := some (g.observer.getD {}) } }
            let s4 := (MorafManager.observe native k s3).1
            { s4 with
              allManagers := updateAt s4.allManagers k fun g => { g with active := true } }
          else s2

/-- The index of the first manager whose element is `element`. -/
def findManager (element : Node) : List MorafManager → Option Nat
  | [] => none
  | g :: gs => if element = g.element then some 0 else (findManager element gs).map (· + 1)

/-- The method `Moraf.getManager` for the request at index `i`. -/
def Moraf.getManager (native : Bool) (doc : Doc) (i : Nat) (s : State) : State :=
  match s.allMorafs[i]? with
  | none => s
  | some m =>
      match findManager m.element s.allManagers with
      | some k =>
          let s1 := MorafManager.add native doc k i s
          { s1 with allMorafs := updateAt s1.allMorafs i fun m => { m with manager := some k } }
      | none =>
          let s1 := MorafManager.new native doc i s
          { s1 with
            allMorafs := updateAt s1.allMorafs i fun m =>
              { m with manager := some s.allManagers.length } }

/-- The constructor `new Moraf(data)`: the new request is pushed onto
`allMorafs`, then attached to the manager of its element. -/
def Moraf.new (native : Bool) (doc : Doc) (data : MorafData) (s : State) : State :=
  Moraf.getManager native doc s.allMorafs.length
    { s with allMorafs := s.allMorafs ++ [Moraf.ofData doc data] }

/-! ## Notifications and the evaluation pass -/

/-- The first loop of `MorafManager.onMutate`: every active manager is marked
inactive and disconnected. The flag says whether a `disconnect` threw (the
manager has no observer); the loop stops there. -/
def pauseAll (native : Bool) : List MorafManager → List MorafManager × Bool
  | [] => ([], false)
  | g :: gs =>
      if g.active then
        match g.observer with
        | none => ({ g with active := false } :: gs, true)
        | some o =>
            let r := pauseAll native gs
            ({ g with active := false, observer := some (o.disconnect native) } :: r.1, r.2)
      else
        let r := pauseAll native gs
        (g :: r.1, r.2)

/-- The method `MorafManager.onMutate`, the callback of every handle, up to the
request for an animation frame: the notification is counted, every manager is
paused and one more frame callback is requested. -/
def MorafManager.onMutate (native : Bool) (s : State) : State × Bool :=
  let r := pauseAll native s.allManagers
  if r.2 then
    ({ s with mutationCount := s.mutationCount + 1, allManagers := r.1 }, true)
  else
    ({ s with
        mutationCount := s.mutationCount + 1
        allManagers := r.1
        frames := s.frames + 1 }, false)

/-- The body of the first loop of the frame callback for index `i`: an active
request is evaluated and, if it is still active, its manager is marked active.
The flag says whether the body threw. -/
def passStep (docs : Nat → Doc) (i : Nat) (s : State) : State × Bool :=
  match s.allMorafs[i]? with
  | none => (s, false)
  | some m =>
      if m.active then
        let r := evalMoraf (docs i) i s
        if r.2 then r
        else
          match r.1.allMorafs[i]? with
          | none => r
          | some m1 =>
              if m1.active then
                match m1.manager with
                | none => (r.1, true)
                | some k =>
                    ({ r.1 with
                        allManagers := updateAt r.1.allManagers k fun g =>
                          { g with active := true } }, false)
              else r
      else (s, false)

/-- The first loop of the frame callback over the indices `is`; it stops at the
first body that throws. -/
def passLoop (docs : Nat → Doc) : List Nat → State → State × Bool
  | [], s => (s, false)
  | i :: is, s =>
      let r := passStep docs i s
      if r.2 then r else passLoop docs is r.1

/-- The second loop of the frame callback: every active manager observes
again. The result is the managers, the number of interval ids handed out, and
whether an `observe` threw (the manager has no observer). -/
def resumeAll (native : Bool) : List MorafManager → Nat → List MorafManager × Nat × Bool
  | [], ids => ([], ids, false)
  | g :: gs, ids =>
      if g.active then
        match g.observer with
        | none => (g :: gs, ids, true)
        | some o =>
            let r := resumeAll native gs (if native then ids else ids + 1)
            ({ g with observer := some (o.observe native (ids + 1)) } :: r.1, r.2.1, r.2.2)
      else
        let r := resumeAll native gs ids
        (g :: r.1, r.2.1, r.2.2)

/-- The callback handed to `_requestAnimationFrame`: one evaluation pass.
`docs i` is the document as the evaluation of request `i` reads it. -/
def frameCallback (native : Bool) (docs : Nat → Doc) (s : State) : State × Bool :=
  let s1 := { s with rafCount := s.rafCount + 1 }
  let r := passLoop docs (List.range s1.allMorafs.length) s1
  if r.2 then r
  else
    let q := resumeAll native r.1.allManagers r.1.timerIds
    ({ r.1 with allManagers := q.1, timerIds := q.2.1 }, q.2.2)

/-! ## Factories

The static methods `Moraf.create`, `Moraf.change` and `Moraf.text` build the
`data` object of the constructor call they end with. -/

/-- The factory `Moraf.change(el, ...args)` with `el` resolved to a node. The
attribute names are `none` when the argument is left out; `cond` is the third
argument when it is given: one condition, or an array of them. -/
def Factory.change (element : Node) (attributes : Option (List String))
    (cond : Option (Cond ⊕ List (Option Cond))) (callback : Nat) (multiArg : Option Bool) :
    MorafData :=
  let multi := !(multiArg == some false)
  match attributes with
  | some names =>
      match cond with
      | none =>
          { type := .change, element := element, attributes := names,
            conditions := .single (.str ""), callback := callback, multi := some multi }
      | some (.inl c) =>
          { type := .change, element := element, attributes := names,
            conditions := .array [some c], callback := callback, multi := some multi }
      | some (.inr cs) =>
          { type := .change, element := element, attributes := names,
            conditions := .array cs, callback := callback, multi := some multi }
  | none =>
      { type := .change, element := element, attributes := [],
        conditions := .array [], callback := callback, multi := some multi }

/-- The factory `Moraf.text(el, ...args)` with `el` resolved to a node; `cond`
is the string condition when one is given. The local `multi` is computed from
the last argument and is not among the keys of the object handed to the
constructor. The call with a `RegExp` in the place of the condition is
`Factory.textWithPattern`. -/
def Factory.text (doc : Doc) (element : Node) (cond : Option String) (callback : Nat)
    (_multiArg : Option Bool) : MorafData :=
  { type := .text, element := element,
    conditions := .single (.str (cond.getD "")), callback := callback,
    text := some (doc.textContent element) }

/-- The factory `Moraf.create(selector, ...args)` with the parent given as a
node (`document` when it is left out) and the callback as a function. The call
with the parent given as a selector string is `Factory.createInSelector`. -/
def Factory.create (selector : String) (element : Node) (callback : Nat)
    (multiArg : Option Bool) : MorafData :=
  { type := .create, callback := callback, selector := selector, element := element,
    multi := some (!(multiArg == some false)) }

/-! ## Runs -/

/-- What can happen to the watch system: a request is constructed, a handle
delivers a notification, or the host runs one requested frame callback. -/
inductive Event where
  | construct (data : MorafData) (doc : Doc)
  | notify
  | frame (docs : Nat → Doc)

/-- One event. A frame callback runs only if one was requested. -/
def step (native : Bool) (s : State) : Event → State
  | .construct data doc => Moraf.new native doc data s
  | .notify => (MorafManager.onMutate native s).1
  | .frame docs =>
      if s.frames = 0 then s
      else (frameCallback native docs { s with frames := s.frames - 1 }).1

/-- A sequence of events. -/
def run (native : Bool) (s : State) (es : List Event) : State :=
  es.foldl (step native) s

/-! ## Evaluations of one request -/

/-- The payload of an evaluation as a list of at most one payload. -/
def firedList : Option (List Node) → List (List Node)
  | some payload => [payload]
  | none => []

/-- The payloads the callback of a request receives when `onMutate` is called
on it once for each document of the list, in turn. -/
def payloads (m : Moraf) : List Doc → List (List Node)
  | [] => []
  | doc :: docs => firedList (m.onMutate doc).fired ++ payloads (m.onMutate doc).moraf docs

/-- The request after `onMutate` was called on it once for each document. -/
def afterEvals (m : Moraf) : List Doc → Moraf
  | [] => m
  | doc :: docs => afterEvals (m.onMutate doc).moraf docs

/-! ## Criteria for attribute changes -/

/-- The attribute `name`, declared at `index`, qualifies: its entry differs
from the one in the snapshot and it has no (truthy) paired condition, or its
new entry is a string that contains the paired condition. -/
def qualifies (attributeMap newAttributes : AttributeMap) (conditions : Conditions)
    (name : String) (index : Nat) : Prop :=
  attributeMap.get name ≠ newAttributes.get name ∧
    (conditions.lookup index = some none ∨
      ∃ c v, conditions.lookup index = some (some c) ∧
        newAttributes.get name = .string v ∧ jsIncludes v c.toJsString = true)

/-- The scan throws at the attribute `name`, declared at `index`: its entry
differs from the one in the snapshot and either `conditions` cannot be indexed
or the attribute has a paired condition and its new entry is not a string. -/
def aborts (attributeMap newAttributes : AttributeMap) (conditions : Conditions)
    (name : String) (index : Nat) : Prop :=
  attributeMap.get name ≠ newAttributes.get name ∧
    (conditions.lookup index = none ∨
      ∃ c, conditions.lookup index = some (some c) ∧
        ∀ v, newAttributes.get name ≠ .string v)

/-- The criterion of the specification for an attribute-change request, read
literally: take the first attribute in declared order whose value differs from
the snapshot; the callback fires iff that attribute has no paired condition or
its new value contains the condition. -/
def firstChangedSatisfies (attributeMap newAttributes : AttributeMap)
    (conditions : Conditions) : List String → Nat → Bool
  | [], _ => false
  | name :: rest, index =>
      if attributeMap.get name ≠ newAttributes.get name then
        match conditions.lookup index with
        | some (some c) =>
            match newAttributes.get name with
            | .string v => jsIncludes v c.toJsString
            | _ => false
        | some none => true
        | none => false
      else firstChangedSatisfies attributeMap newAttributes conditions rest (index + 1)

/-- The scan criterion for the names from index `k` on: some attribute
qualifies and the scan does not throw before it. -/
def scanCriterion (old new : AttributeMap) (conds : Conditions) (names : List String)
    (k : Nat) : Prop :=
  ∃ i name, names[i]? = some name ∧ qualifies old new conds name (k + i) ∧
    ∀ j n, j < i → names[j]? = some n → ¬ aborts old new conds n (k + j)

/-! ## Example documents and requests -/

/-- A document in which every element has the attributes `a`, `b` and `class`
with the given values, each on its own `Attr` node (the nodes 1, 2 and 3,
whatever the values), and the given text. -/
def exampleDoc (a b cls text : String) : Doc :=
  { query := fun _ _ => []
    hasAttributes := fun _ => true
    attr := fun _ name =>
      if name = "a" then some { id := 1, value := a }
      else if name = "b" then some { id := 2, value := b }
      else if name = "class" then some { id := 3, value := cls }
      else none
    href := fun _ => none
    textContent := fun _ => text }

/-- A document in which the container, node 0, has the given descendants
matching every selector. -/
def containerDoc (items : List Node) : Doc :=
  { query := fun element _ => if element = 0 then items else []
    hasAttributes := fun _ => true
    attr := fun _ _ => none
    href := fun _ => none
    textContent := fun _ => "" }

/-! ## Example links -/

/-- A document in which node 1 is a link: its `href` property is the given
URL, its `href` attribute sits on the `Attr` node 1, and it has the `class`
attribute given, if any. -/
def linkDoc (url : String) (cls : Option Attr) : Doc :=
  { query := fun _ _ => []
    hasAttributes := fun _ => true
    attr := fun _ name =>
      if name = "href" then some { id := 1, value := url }
      else if name = "class" then cls
      else none
    href := fun _ => some url
    textContent := fun _ => "" }

/-- The request `Moraf.change(link, ['href', 'class'], 'x', callback7)` built
while the `href` of the link is `http://h/1` and it has no `class`. -/
def linkWatch : Moraf :=
  Moraf.ofData (linkDoc "http://h/1" none)
    (Factory.change 1 (some ["href", "class"]) (some (.inl (.str "x"))) 7 none)

/-- The text-change request `Moraf.text(node1, callback7)` built, with no
repeat argument, when the text of node 1 is `"A"`. -/
def exampleTextData : MorafData :=
  Factory.text (exampleDoc "" "" "" "A") 1 none 7 none

/-- The first burst: the request is constructed, the text becomes `"B"`, the
handle notifies and the frame callback runs. -/
def textBurst1 : List Event :=
  [.construct exampleTextData (exampleDoc "" "" "" "A"), .notify,
    .frame fun _ => exampleDoc "" "" "" "B"]

/-- The second burst: the text is `"A"` again; a notification and a frame
callback are run. -/
def textBurst2 : List Event :=
  [.notify, .frame fun _ => exampleDoc "" "" "" "A"]

/-- The request `Moraf.change(node1, callback7)` (no attribute names, no
conditions) is constructed when the class of node 1 is `"x"`; the class becomes
`"y"`, the handle notifies and the frame callback runs. -/
def changeAllTrace : List Event :=
  [.construct (Factory.change 1 none none 7 none) (exampleDoc "" "" "x" ""), .notify,
    .frame fun _ => exampleDoc "" "" "y" ""]

/-- What the registration of a new request does to it: a `CREATE` request is
evaluated once (`if(moraf.type === CREATE) moraf.onMutate()`), any other is
left as it is. -/
def regEval (doc : Doc) (m0 : Moraf) : Eval :=
  if m0.type = .create then m0.onMutate doc else { moraf := m0, fired := none, threw := false }

/-! ## Invariants of the registry -/

/-- How many recorded invocations belong to the request at index `i`. -/
def callCount (calls : List Call) (i : Nat) : Nat :=
  (calls.filter fun c => c.moraf == i).length

/-- The invocations recorded so far belong to requests of the registry, and a
fire-once request has at most one, none while it is active. -/
structure InvCalls (morafs : List Moraf) (calls : List Call) : Prop where
  calls_lt : ∀ c ∈ calls, c.moraf < morafs.length
  once : ∀ (i : Nat) (m : Moraf), morafs[i]? = some m → notMulti m.multi = true →
    callCount calls i ≤ 1 ∧ (m.active = true → callCount calls i = 0)

/-- No two managers share an element; every request is a member of the manager
it points at, which has its element and, if the request is active, an observer;
an active manager has an observer. -/
structure InvGroups (morafs : List Moraf) (managers : List MorafManager) : Prop where
  nodup : (managers.map fun g => g.element).Nodup
  owner : ∀ (i : Nat) (m : Moraf), morafs[i]? = some m →
    ∃ (k : Nat) (g : MorafManager), m.manager = some k ∧ managers[k]? = some g ∧
    g.element = m.element ∧ i ∈ g.morafs ∧ (m.active = true → g.observer.isSome = true)
  handle : ∀ g ∈ managers, g.active = true → g.observer.isSome = true

/-- The invariant of the module state. -/
structure Inv (s : State) : Prop where
  calls : InvCalls s.allMorafs s.calls
  groups : InvGroups s.allMorafs s.allManagers

/-- A manager after an operation that keeps its element, its members and its
observer, and activates it only if it has an observer. -/
def GroupStep (g g1 : MorafManager) : Prop :=
  g1.element = g.element ∧ (∀ i ∈ g.morafs, i ∈ g1.morafs) ∧
    (g.observer.isSome = true → g1.observer.isSome = true) ∧
    (g1.active = true → g.active = true ∨ g1.observer.isSome = true)

/-- The request at index `i` and its recorded invocations are the same in both
states. -/
def SameAt (i : Nat) (s s1 : State) : Prop :=
  s1.allMorafs[i]? = s.allMorafs[i]? ∧ callCount s1.calls i = callCount s.calls i

/-- The number of notifications in a sequence of events. -/
def notifications : List Event → Nat
  | [] => 0
  | .notify :: es => notifications es + 1
  | _ :: es => notifications es

/-- The fire-once text request of `exampleTextData` after its callback was
invoked for the text `"B"`. -/
def exampleTextDone : Moraf :=
  { Moraf.ofData (exampleDoc "" "" "" "A") exampleTextData with
    text := some "B", active := false, manager := some 0 }

/-- Two notifications with no frame callback in between: a text watch on node
1 is constructed and its handle notifies; before the frame, a text watch on
node 2 is constructed and the handle of its new group notifies as well. -/
def twoNotifications : List Event :=
  [.construct exampleTextData (exampleDoc "" "" "" "A"), .notify,
    .construct (Factory.text (exampleDoc "" "" "" "A") 2 none 8 none) (exampleDoc "" "" "" "A"),
    .notify]

/-- The three counters of the module state are the same in both states. -/
def SameCounters (s s1 : State) : Prop :=
  s1.mutationCount = s.mutationCount ∧ s1.rafCount = s.rafCount ∧ s1.frames = s.frames

/-- A document in which node 2 has the given descendants matching every
selector, and every node has the given text. -/
def lateDoc (text : String) (items : List Node) : Doc :=
  { query := fun element _ => if element = 2 then items else []
    hasAttributes := fun _ => true
    attr := fun _ _ => none
    href := fun _ => none
    textContent := fun _ => text }

/-- A group created between a notification and its pass: a text watch on node
1 is constructed, the text of node 1 becomes `"B"` and the handle notifies;
before the frame, the fire-once request
`Moraf.create('.item', node2, callback9, false)` is constructed while node 2
has no matching descendant. In the pass the text watch, request 0, sees the
new text and its callback is invoked; that callback inserts node 5 under node
2, so the evaluation of request 1, which follows in the same pass, finds it. -/
def lateGroupTrace : List Event :=
  [.construct exampleTextData (lateDoc "A" []), .notify,
    .construct (Factory.create ".item" 2 9 (some false)) (lateDoc "B" []),
    .frame fun i => if i = 0 then lateDoc "B" [] else lateDoc "B" [5]]

/-- The `data` of a request of the unknown kind `"hover"` on node 1. -/
def hoverData : MorafData :=
  { type := .other "hover", element := 1, callback := 7, multi := some true }

/-! ## The reference definition of a creation evaluation -/

/-- The reference definition of one evaluation of a Creation request, in the
words of the specification: the remainder is the current descendants matching
the selector, in document order, minus the processed set; if it is non-empty
the callback is invoked with it, it is appended to the processed set and the
request is deactivated if it is not repeating (`multi` is not `true`); if it is
empty there is no callback and no change. -/
def createReference (doc : Doc) (m : Moraf) : Eval :=
  match (doc.query m.element m.selector).filter fun x => decide (x ∉ m.processed) with
  | [] => { moraf := m, fired := none, threw := false }
  | x :: xs =>
      { moraf := { m with
          processed := m.processed ++ (x :: xs)
          active := m.active && (m.multi == some true) }
        fired := some (x :: xs)
        threw := false }

/-- The scenario of the specification: a repeating watch for `".item"` on the
empty container, node 0; two matching children are inserted (notification,
frame), then three more in a later burst (notification, frame). -/
def createScenario : List Event :=
  [.construct (Factory.create ".item" 0 7 none) (containerDoc []), .notify,
    .frame (fun _ => containerDoc [1, 2]), .notify,
    .frame fun _ => containerDoc [1, 2, 3, 4, 5]]

/-! ## Attribute requests: removed attributes and patterns -/

/-- What `getAttributeMap` records for the attribute `name` of an element: the
`href` property for `href` when it is set, the `Attr` node of the attribute
otherwise (`undefined` when the node has no such attribute). -/
def currentValue (doc : Doc) (element : Node) (name : String) : Entry :=
  if name = "href" ∧ hrefTruthy (doc.href element) = true then hrefEntry doc element
  else attrEntry doc element name

/-- A document in which node 1 has no attributes left. -/
def removedDoc : Doc :=
  { query := fun _ _ => []
    hasAttributes := fun _ => true
    attr := fun _ _ => none
    href := fun _ => none
    textContent := fun _ => "" }

/-- The request `Moraf.change(node1, 'class', 'active', callback7, false)`
built while the class of node 1 is `"x"`. -/
def classWatchData : MorafData :=
  Factory.change 1 (some ["class"]) (some (.inl (.str "active"))) 7 (some false)

/-- The request of `classWatchData` as the constructor leaves it. -/
def classWatch : Moraf :=
  Moraf.ofData (exampleDoc "" "" "x" "") classWatchData

/-- The scenario of the specification for `classWatchData`: the class goes from
`"x"` to `"y"`, then to `"active y"`, then to `"active"`, each time with a
notification and a frame callback. -/
def classScenario : List Event :=
  [.construct classWatchData (exampleDoc "" "" "x" ""), .notify,
    .frame (fun _ => exampleDoc "" "" "y" ""), .notify,
    .frame (fun _ => exampleDoc "" "" "active y" ""), .notify,
    .frame fun _ => exampleDoc "" "" "active" ""]

/-- The request of `classWatchData` as the constructor leaves it when node 1
has no `class` attribute at registration. -/
def classWatchNoClass : Moraf :=
  Moraf.ofData removedDoc classWatchData

/-- The class attribute of node 1 is removed after `classWatchData` was
registered: notification, frame callback. -/
def classRemovedTrace : List Event :=
  [.construct classWatchData (exampleDoc "" "" "x" ""), .notify, .frame fun _ => removedDoc]

/-- Whether a `RegExp` source is a plain run of letters, digits and blanks, with
no character that the pattern syntax gives a meaning to. -/
def literalSource (source : String) : Bool :=
  source.toList.all fun c => c.isAlphanum || c == ' '

/-- Whether `value` contains a match of the pattern `/source/` for a literal
source and no flags: such a pattern matches exactly the occurrences of its
source. `none` for any other pattern, which this development does not
interpret. -/
def containsMatch (source flags value : String) : Option Bool :=
  if literalSource source ∧ flags = "" then some (jsIncludes value source) else none

/-- The request `Moraf.change(link, 'href', /active/, callback7)` built while
the `href` of the link, node 1, is `http://h/x`. -/
def patternLinkWatch : Moraf :=
  Moraf.ofData (linkDoc "http://h/x" none)
    (Factory.change 1 (some ["href"]) (some (.inl (.regExp "active" ""))) 7 none)

/-- A text request on node 1 with the pattern `/done/` as its condition, built
by the constructor while the text is `"A"`. -/
def patternTextWatch : Moraf :=
  Moraf.ofData (exampleDoc "" "" "" "A")
    { type := .text, element := 1, callback := 7, multi := some true,
      conditions := .single (.regExp "done" ""), text := some "A" }

/-- A fire-once creation watch for `".item"` on the container, node 0. -/
def onceCreateData : MorafData :=
  Factory.create ".item" 0 7 (some false)

/-! ## Sequences of calls on one handle -/

/-- A call on an observation handle: `observe` (start) or `disconnect` (stop). -/
inductive HandleOp where
  | start
  | stop
deriving DecidableEq, Repr

/-- One call on a handle; the number counts the interval ids handed out by the
host so far, and a start on the fallback path takes the next one. -/
def Observer.call (native : Bool) (h : Observer × Nat) : HandleOp → Observer × Nat
  | .start => (h.1.observe native (h.2 + 1), if native then h.2 else h.2 + 1)
  | .stop => (h.1.disconnect native, h.2)

/-- A sequence of calls on a new handle. -/
def Observer.calls (native : Bool) (ops : List HandleOp) : Observer × Nat :=
  ops.foldl (Observer.call native) ({}, 0)

/-- Two text watches on the same node, node 1, as `exampleTextData` builds
them, then a notification. -/
def sharedNodeTrace : List Event :=
  [.construct exampleTextData (exampleDoc "" "" "" "A"),
    .construct exampleTextData (exampleDoc "" "" "" "A"), .notify]

/-! ## Callbacks that throw or construct requests

The definitions above take every `callback` to be a function that leaves the
watch system alone. Here what `callback.apply` does is a parameter, and the
constructors are followed statement by statement, so that a callback that
throws, or that constructs a request while its own request is being
constructed, is covered. -/

/-- What `callback.apply(...)` does with the value stored in the field
`callback` of a request. `notCallable`: the value has no method `apply` (it is
`undefined`, or a `RegExp`), so the call throws a `TypeError`. `callable body`:
the value is a function, and `body` is what running it does to the module
state, with the flag saying whether it throws. -/
inductive Applied where
  | notCallable
  | callable (body : State → State × Bool)

/-- The method `Moraf.onMutate` up to its `callback.apply`. When the call
reaches one, `fired` is the payload and `moraf` is the request as it is at that
point (`processed` and `active` are written before the callback is applied).
When it reaches none, the result is that of the whole call. -/
def Moraf.untilCallback (doc : Doc) (m : Moraf) : Eval :=
  match m.type with
  | .create =>
      let created := (doc.query m.element m.selector).filter fun x => !(m.processed.contains x)
      if created.length ≠ 0 then
        { moraf := { m with
            processed := m.processed ++ created
            active := if notMulti m.multi then false else m.active }
          fired := some created
          threw := false }
      else { moraf := m, fired := none, threw := false }
  | .change =>
      let newAttributes := getAttributeMap doc m.element m.attributes
      match scanAttributes m.attributeMap newAttributes m.conditions m.attributes 0 with
      | .threw => { moraf := m, fired := none, threw := true }
      | .fire =>
          { moraf := { m with active := if notMulti m.multi then false else m.active }
            fired := some [m.element]
            threw := false }
      | .done =>
          { moraf := { m with attributeMap := newAttributes }, fired := none, threw := false }
  | .text =>
      let newText := doc.textContent m.element
      if some newText ≠ m.text ∧
          (m.conditions.truthy = false ∨ jsIncludes newText m.conditions.toJsString = true) then
        { moraf := { m with active := if notMulti m.multi then false else m.active }
          fired := some [m.element]
          threw := false }
      else { moraf := { m with text := some newText }, fired := none, threw := false }
  | .other _ => { moraf := m, fired := none, threw := false }

/-- The statements of `Moraf.onMutate` that follow a `callback.apply` that
returned: `this.attributeMap = newAttributes` in the `CHANGE` case,
`this.text = newText` in the `TEXT` case, none in the `CREATE` case. -/
def Moraf.afterCallback (doc : Doc) (m : Moraf) : Moraf :=
  match m.type with
  | .create => m
  | .change => { m with attributeMap := getAttributeMap doc m.element m.attributes }
  | .text => { m with text := some (doc.textContent m.element) }
  | .other _ => m

/-- A call `moraf.onMutate()` on the request at index `i`, whose callback does
`applied` when it is applied. The statements before `callback.apply` take
effect; if the callback is not callable the call throws there; otherwise the
invocation is recorded, the body runs, and, unless it throws, the statements
after it take effect. -/
def evalMorafWith (doc : Doc) (applied : Applied) (i : Nat) (s : State) : State × Bool :=
  match s.allMorafs[i]? with
  | none => (s, false)
  | some m =>
      let r := m.untilCallback doc
      let s1 := { s with allMorafs := s.allMorafs.set i r.moraf }
      match r.fired with
      | none => (s1, r.threw)
      | some payload =>
          match applied with
          | .notCallable => (s1, true)
          | .callable body =>
              let q := body { s1 with calls := s1.calls ++ callsOf i m.callback (some payload) }
              if q.2 then q
              else
                ({ q.1 with allMorafs := updateAt q.1.allMorafs i (Moraf.afterCallback doc) },
                  false)

/-- The constructor `new MorafManager(element, moraf)` for the request at
index `i`, statement by statement. When `moraf.onMutate()` throws, the
constructor ends there: `allManagers.push(this)` is not reached. Otherwise the
manager is pushed last, after any manager pushed while the callback ran. -/
def MorafManager.newWith (native : Bool) (doc : Doc) (applied : Applied) (i : Nat)
    (s : State) : State × Bool :=
  match s.allMorafs[i]? with
  | none => (s, false)
  | some m0 =>
      -- if(moraf.type === CREATE) moraf.onMutate();
      let r := if m0.type = .create then evalMorafWith doc applied i s else (s, false)
      if r.2 then r
      else
        match r.1.allMorafs[i]? with
        | none => r
        | some m =>
            let g : MorafManager :=
              { element := m.element, type := m.type, init := m.init, active := false,
                morafs := [i], observer := none }
            let fresh := freshTimer r.1
            let g1 : MorafManager :=
              if m.active then
                { g with
                  observer := some (Observer.observe native fresh {})
                  active := true }
              else g
            ({ r.1 with
                allManagers := r.1.allManagers ++ [g1]
                timerIds := if m.active ∧ native = false then fresh else r.1.timerIds }, false)

/-- The method `MorafManager.add` of the manager at index `k` for the request
at index `i`, statement by statement. When `moraf.onMutate()` throws, the
method ends there: `this.morafs.push(moraf)` is not reached. -/
def MorafManager.addWith (native : Bool) (doc : Doc) (applied : Applied) (k i : Nat)
    (s : State) : State × Bool :=
  match s.allMorafs[i]? with
  | none => (s, false)
  | some m0 =>
      -- if(moraf.type === CREATE) moraf.onMutate();
      let r := if m0.type = .create then evalMorafWith doc applied i s else (s, false)
      if r.2 then r
      else
        -- this.morafs.push(moraf);
        let s2 :=
          { r.1 with
            allManagers := updateAt r.1.allManagers k fun g =>
              { g with morafs := g.morafs ++ [i] } }
        match s2.allMorafs[i]? with
        | none => (s2, false)
        | some m =>
            if m.active then
              -- this.observer = this.observer || new Observer(...); this.observe();
              let s3 :=
                { s2 with
                  allManagers := updateAt s2.allManagers k fun g =>
                    { g with observer := some (g.observer.getD {}) } }
              let s4 := (MorafManager.observe native k s3).1
              ({ s4 with
                  allManagers := updateAt s4.allManagers k fun g => { g with active := true } },
                false)
            else (s2, false)

/-- The method `Moraf.getManager` for the request at index `i`, statement by
statement. When `manager.add` or the `MorafManager` constructor throws, the
assignment to `this.manager` is not reached. The manager a constructor call
returns is the one it pushed, the last of `allManagers`. -/
def Moraf.getManagerWith (native : Bool) (doc : Doc) (applied : Applied) (i : Nat)
    (s : State) : State × Bool :=
  match s.allMorafs[i]? with
  | none => (s, false)
  | some m =>
      match findManager m.element s.allManagers with
      | some k =>
          let r := MorafManager.addWith native doc applied k i s
          if r.2 then r
          else
            ({ r.1 with
                allMorafs := updateAt r.1.allMorafs i fun m => { m with manager := some k } },
              false)
      | none =>
          let r := MorafManager.newWith native doc applied i s
          if r.2 then r
          else
            ({ r.1 with
                allMorafs := updateAt r.1.allMorafs i fun m =>
                  { m with manager := some (r.1.allManagers.length - 1) } }, false)

/-- The constructor `new Moraf(data)` for a request whose callback does
`applied` when it is applied: the new request is pushed onto `allMorafs`, then
`getManager` runs. The flag says whether the constructor threw. -/
def Moraf.newWith (native : Bool) (doc : Doc) (applied : Applied) (data : MorafData)
    (s : State) : State × Bool :=
  Moraf.getManagerWith native doc applied s.allMorafs.length
    { s with allMorafs := s.allMorafs ++ [Moraf.ofData doc data] }

/-- A function that leaves the watch system alone. -/
def Applied.inert : Applied :=
  .callable fun s => (s, false)

/-- A function whose body is one call `new Moraf(data)` (through a factory),
for a request whose own callback is a function that leaves the watch system
alone. -/
def Applied.constructs (native : Bool) (doc : Doc) (data : MorafData) : Applied :=
  .callable fun s => (Moraf.new native doc data s, false)

/-- The factory `Moraf.create(selector, parent, ...)` with the parent given as
a selector string, resolved to `element`: this branch assigns `element` only,
so `multi` keeps its initial value and the key `callback` of the object handed
to the constructor is `undefined`, whatever arguments follow. The identity in
the field `callback` is never recorded, for applying `undefined` throws. -/
def Factory.createInSelector (selector : String) (element : Node) : MorafData :=
  { type := .create, callback := 0, selector := selector, element := element,
    multi := some true }

/-- The factory `Moraf.text(el, pattern, ...)` with a `RegExp` as the argument
after the element: `typeof(args[0])` is not `'string'`, so the branch
`callback = args[0]; conditions = ''` runs. The key `callback` holds the
`RegExp`, of identity `pattern`, and the arguments that follow are not read. -/
def Factory.textWithPattern (doc : Doc) (element : Node) (pattern : Nat) : MorafData :=
  { type := .text, element := element,
    conditions := .single (.str ""), callback := pattern,
    text := some (doc.textContent element) }

/-- A document in which `document`, node 0, has the descendant 1 matching the
selector `.a` and no descendant matching any other selector. -/
def nestedDoc : Doc :=
  { query := fun element selector => if element = 0 ∧ selector = ".a" then [1] else []
    hasAttributes := fun _ => true
    attr := fun _ _ => none
    href := fun _ => none
    textContent := fun _ => "" }

/-- The call `Moraf.create('.a', callback7)` in the empty registry, on
`nestedDoc`, where `callback7` is a function whose body is the call
`Moraf.create('.b', callback8)`: the state it leaves and whether it threw. -/
def nestedCreate (native : Bool) : State × Bool :=
  Moraf.newWith native nestedDoc
    (Applied.constructs native nestedDoc (Factory.create ".b" 0 8 none))
    (Factory.create ".a" 0 7 none) {}

/-- The request `Moraf.text(node1, /B/, callback)` built when the text of node
1 is `"A"`: the `RegExp`, of identity 7, is stored as its callback. -/
def patternCallbackWatch : Moraf :=
  Moraf.ofData (exampleDoc "" "" "" "A")
    (Factory.textWithPattern (exampleDoc "" "" "" "A") 1 7)

/-- The call `Moraf.create('.item', '#box', callback)` after a text watch on
node 1 was constructed; `#box` is node 2, which has the descendant 5 matching
`.item`. The state it leaves and whether it threw. -/
def selectorParentCreate (native : Bool) : State × Bool :=
  Moraf.newWith native (lateDoc "A" [5]) .notCallable (Factory.createInSelector ".item" 2)
    (run native {} [.construct exampleTextData (lateDoc "A" [5])])

/-- The call `Moraf.text(node1, /B/, callback)` in the empty registry when the
text of node 1 is `"A"`: the state it leaves and whether it threw. -/
def patternCallbackCreate (native : Bool) : State × Bool :=
  Moraf.newWith native (exampleDoc "" "" "" "A") .notCallable
    (Factory.textWithPattern (exampleDoc "" "" "" "A") 1 7) {}

/-- The notification that follows `selectorParentCreate` and the frame
callback it requests, run while the document is as it was: the state the
frame callback leaves and whether it threw. -/
def selectorParentPass (native : Bool) : State × Bool :=
  frameCallback native (fun _ => lateDoc "A" [5])
    { (MorafManager.onMutate native (selectorParentCreate native).1).1 with
      frames := (MorafManager.onMutate native (selectorParentCreate native).1).1.frames - 1 }

/-! # Theorems -/

/-! ## Creation requests -/

theorem onMutate_create_type (doc : Doc) (m : Moraf) (h : m.type = .create) :
    (m.onMutate doc).moraf.type = .create := by
  unfold Moraf.onMutate
  simp only [h]
  split <;> simp [h]

theorem onMutate_create_processed (doc : Doc) (m : Moraf) (h : m.type = .create) :
    ∃ t, (m.onMutate doc).moraf.processed = m.processed ++ t ∧
      ∀ p ∈ firedList (m.onMutate doc).fired,
        (∀ x ∈ p, x ∉ m.processed) ∧ ∀ x ∈ p, x ∈ (m.onMutate doc).moraf.processed := by
  unfold Moraf.onMutate
  simp only [h]
  split
  · refine ⟨_, rfl, ?_⟩
    intro p hp
    simp only [firedList, List.mem_singleton] at hp
    subst hp
    constructor
    · intro x hx
      have := (List.mem_filter.mp hx).2
      simpa using this
    · intro x hx
      exact List.mem_append_right _ hx
  · exact ⟨[], by simp, by simp [firedList]⟩

theorem payloads_create (docs : List Doc) :
    ∀ m : Moraf, m.type = .create →
      (payloads m docs).Pairwise List.Disjoint ∧
      (∀ p ∈ payloads m docs, ∀ x ∈ p, x ∉ m.processed) ∧
      ∃ t, (afterEvals m docs).processed = m.processed ++ t := by
  induction docs with
  | nil => intro m _; exact ⟨List.Pairwise.nil, by simp [payloads], ⟨[], by simp [afterEvals]⟩⟩
  | cons doc docs ih =>
      intro m h
      obtain ⟨t, ht, hf⟩ := onMutate_create_processed doc m h
      obtain ⟨hpw, hnot, t2, ht2⟩ := ih _ (onMutate_create_type doc m h)
      refine ⟨?_, ?_, ⟨t ++ t2, ?_⟩⟩
      · simp only [payloads]
        rw [List.pairwise_append]
        refine ⟨?_, hpw, ?_⟩
        · cases hfd : (m.onMutate doc).fired <;> simp [firedList]
        · intro p hp q hq x hxp hxq
          exact hnot q hq x hxq ((hf p hp).2 x hxp)
      · intro p hp x hx
        simp only [payloads, List.mem_append] at hp
        rcases hp with hp | hp
        · exact (hf p hp).1 x hx
        · intro hmem
          apply hnot p hp x hx
          rw [ht]
          exact List.mem_append_left _ hmem
      · simp only [afterEvals]
        rw [ht2, ht, List.append_assoc]

/-- C1: over any sequence of evaluations of a Creation request (whatever the
documents read), the payloads handed to the callback are pairwise disjoint, no
payload contains a node that was already in the processed set, and the
processed set afterwards extends the one before: a node once delivered is never
delivered again. -/
theorem create_delivers_each_node_once (m : Moraf) (docs : List Doc) (h : m.type = .create) :
    (payloads m docs).Pairwise List.Disjoint ∧
    (∀ p ∈ payloads m docs, ∀ x ∈ p, x ∉ m.processed) ∧
    ∃ t, (afterEvals m docs).processed = m.processed ++ t :=
  payloads_create docs m h

/-- C1, at a concrete input: a repeating watch on a container in which nodes 1
and 2 match, then nothing matches (they were removed), then 1, 2 and 3 match
delivers `[1, 2]` and then `[3]`. -/
theorem create_delivers_each_node_once_witness :
    payloads (Moraf.ofData (containerDoc []) (Factory.create ".item" 0 7 none))
        [containerDoc [1, 2], containerDoc [], containerDoc [1, 2, 3]] = [[1, 2], [3]] ∧
    ((payloads (Moraf.ofData (containerDoc []) (Factory.create ".item" 0 7 none))
        [containerDoc [1, 2], containerDoc [], containerDoc [1, 2, 3]]).Pairwise List.Disjoint ∧
    (∀ p ∈ payloads (Moraf.ofData (containerDoc []) (Factory.create ".item" 0 7 none))
        [containerDoc [1, 2], containerDoc [], containerDoc [1, 2, 3]],
      ∀ x ∈ p, x ∉ (Moraf.ofData (containerDoc []) (Factory.create ".item" 0 7 none)).processed) ∧
    ∃ t, (afterEvals (Moraf.ofData (containerDoc []) (Factory.create ".item" 0 7 none))
        [containerDoc [1, 2], containerDoc [], containerDoc [1, 2, 3]]).processed =
      (Moraf.ofData (containerDoc []) (Factory.create ".item" 0 7 none)).processed ++ t) :=
  ⟨by decide, create_delivers_each_node_once _ _ rfl⟩

/-! ## Attribute-change requests -/

theorem qualifies_not_aborts {old new : AttributeMap} {conds : Conditions} {name : String}
    {k : Nat} (hq : qualifies old new conds name k) : ¬ aborts old new conds name k := by
  rintro ⟨_, ha⟩
  rcases hq.2 with h | ⟨c, v, h, hv, _⟩ <;> rcases ha with h2 | ⟨c2, h2, hn⟩ <;> simp_all

theorem scanCriterion_head {old new : AttributeMap} {conds : Conditions} {name : String}
    {rest : List String} {k : Nat} (hq : qualifies old new conds name k) :
    scanCriterion old new conds (name :: rest) k :=
  ⟨0, name, by simp, by simpa using hq, by intro j n hj; omega⟩

theorem scanCriterion_abort {old new : AttributeMap} {conds : Conditions} {name : String}
    {rest : List String} {k : Nat} (ha : aborts old new conds name k) :
    ¬ scanCriterion old new conds (name :: rest) k := by
  rintro ⟨i, nm, hi, hq, hall⟩
  cases i with
  | zero =>
      simp only [List.getElem?_cons_zero, Option.some.injEq] at hi
      subst hi
      exact qualifies_not_aborts hq (by simpa using ha)
  | succ i => exact hall 0 name (by omega) (by simp) (by simpa using ha)

theorem scanCriterion_tail {old new : AttributeMap} {conds : Conditions} {name : String}
    {rest : List String} {k : Nat} (hq : ¬ qualifies old new conds name k)
    (ha : ¬ aborts old new conds name k) :
    scanCriterion old new conds (name :: rest) k ↔ scanCriterion old new conds rest (k + 1) := by
  constructor
  · rintro ⟨i, nm, hi, hqi, hall⟩
    cases i with
    | zero =>
        simp only [List.getElem?_cons_zero, Option.some.injEq] at hi
        subst hi
        exact absurd (by simpa using hqi) hq
    | succ i =>
        refine ⟨i, nm, by simpa using hi, ?_, ?_⟩
        · have : k + (i + 1) = k + 1 + i := by omega
          rw [← this]; exact hqi
        · intro j n hj hn
          have := hall (j + 1) n (by omega) (by simpa using hn)
          have e : k + (j + 1) = k + 1 + j := by omega
          rw [← e]; exact this
  · rintro ⟨i, nm, hi, hqi, hall⟩
    refine ⟨i + 1, nm, by simpa using hi, ?_, ?_⟩
    · have : k + (i + 1) = k + 1 + i := by omega
      rw [this]; exact hqi
    · intro j n hj hn
      cases j with
      | zero =>
          simp only [List.getElem?_cons_zero, Option.some.injEq] at hn
          subst hn
          simpa using ha
      | succ j =>
          have := hall j n (by omega) (by simpa using hn)
          have e : k + (j + 1) = k + 1 + j := by omega
          rw [e]; exact this

theorem scanAttributes_fire_iff (old new : AttributeMap) (conds : Conditions)
    (names : List String) :
    ∀ k, scanAttributes old new conds names k = .fire ↔ scanCriterion old new conds names k := by
  induction names with
  | nil => intro k; simp [scanAttributes, scanCriterion]
  | cons name rest ih =>
      intro k
      unfold scanAttributes
      by_cases hch : old.get name = new.get name
      · have hq : ¬ qualifies old new conds name k := fun h => h.1 hch
        have ha : ¬ aborts old new conds name k := fun h => h.1 hch
        simp only [hch, ne_eq, not_true_eq_false, if_false]
        rw [ih, scanCriterion_tail hq ha]
      · simp only [ne_eq, hch, not_false_eq_true, if_true]
        cases hl : conds.lookup k with
        | none =>
            have ha : aborts old new conds name k := ⟨hch, Or.inl hl⟩
            simp [scanCriterion_abort ha]
        | some oc =>
            cases oc with
            | none =>
                have hq : qualifies old new conds name k := ⟨hch, Or.inl hl⟩
                simp [scanCriterion_head hq]
            | some c =>
                cases hv : new.get name with
                | undefined =>
                    have ha : aborts old new conds name k :=
                      ⟨hch, Or.inr ⟨c, hl, fun v => by simp [hv]⟩⟩
                    simp [scanCriterion_abort ha]
                | attrNode id =>
                    have ha : aborts old new conds name k :=
                      ⟨hch, Or.inr ⟨c, hl, fun v => by simp [hv]⟩⟩
                    simp [scanCriterion_abort ha]
                | string v =>
                    by_cases hin : jsIncludes v c.toJsString = true
                    · have hq : qualifies old new conds name k :=
                        ⟨hch, Or.inr ⟨c, v, hl, hv, hin⟩⟩
                      simp [hin, scanCriterion_head hq]
                    · have hq : ¬ qualifies old new conds name k := by
                        rintro ⟨_, h | ⟨c2, v2, h1, h2, h3⟩⟩
                        · simp [hl] at h
                        · simp only [hl, Option.some.injEq] at h1
                          simp only [hv, Entry.string.injEq] at h2
                          subst h1 h2
                          exact hin h3
                      have ha : ¬ aborts old new conds name k := by
                        rintro ⟨_, h | ⟨c2, _, h2⟩⟩
                        · simp [hl] at h
                        · exact h2 v hv
                      simp only [hin, Bool.false_eq_true, if_false]
                      rw [ih, scanCriterion_tail hq ha]

theorem onMutate_change_fired (doc : Doc) (m : Moraf) (h : m.type = .change) :
    (m.onMutate doc).fired ≠ none ↔
      scanAttributes m.attributeMap (getAttributeMap doc m.element m.attributes)
        m.conditions m.attributes 0 = .fire := by
  unfold Moraf.onMutate
  simp only [h]
  split <;> simp_all

theorem scanAttributes_no_throw (old new : AttributeMap) (conds : Conditions)
    (names : List String) :
    ∀ k, (∀ j n, names[j]? = some n → ¬ aborts old new conds n (k + j)) →
      scanAttributes old new conds names k ≠ .threw := by
  induction names with
  | nil => intro k _; simp [scanAttributes]
  | cons name rest ih =>
      intro k h
      have ih1 : scanAttributes old new conds rest (k + 1) ≠ .threw := by
        apply ih
        intro j n hn
        have := h (j + 1) n (by simpa using hn)
        have e : k + (j + 1) = k + 1 + j := by omega
        rw [← e]
        exact this
      have hna : ¬ aborts old new conds name k := by
        simpa using h 0 name (by simp)
      unfold scanAttributes
      by_cases hch : old.get name = new.get name
      · simp only [hch, ne_eq, not_true_eq_false, if_false]
        exact ih1
      · simp only [ne_eq, hch, not_false_eq_true, if_true]
        cases hl : conds.lookup k with
        | none => exact absurd ⟨hch, Or.inl hl⟩ hna
        | some oc =>
            cases oc with
            | none => simp
            | some c =>
                cases hv : new.get name with
                | undefined => exact absurd ⟨hch, Or.inr ⟨c, hl, fun v => by simp [hv]⟩⟩ hna
                | attrNode id => exact absurd ⟨hch, Or.inr ⟨c, hl, fun v => by simp [hv]⟩⟩ hna
                | string v =>
                    simp only
                    split_ifs
                    · simp
                    · exact ih1

theorem onMutate_change_threw (doc : Doc) (m : Moraf) (h : m.type = .change) :
    (m.onMutate doc).threw = true ↔
      scanAttributes m.attributeMap (getAttributeMap doc m.element m.attributes)
        m.conditions m.attributes 0 = .threw := by
  unfold Moraf.onMutate
  simp only [h]
  split <;> simp_all

/-- C2, as stated, fails. Node 1 is a link watched by
`Moraf.change(link, ['href', 'class'], 'x', callback7)`, built while its `href`
is `http://h/1` and it has no `class`. Then the `href` becomes `http://h/2` and
a `class` attribute is added. The first changed attribute in declared order is
`href`, and its new value does not contain its condition `"x"`; yet the
callback is invoked, for `class`, which has no paired condition. -/
theorem first_changed_criterion_fails :
    linkWatch.type = .change ∧
    linkWatch.attributes = ["href", "class"] ∧
    linkWatch.conditions = .array [some (.str "x")] ∧
    linkWatch.attributeMap.get "href" = .string "http://h/1" ∧
    (getAttributeMap (linkDoc "http://h/2" (some { id := 2, value := "c" })) 1
      ["href", "class"]).get "href" = .string "http://h/2" ∧
    jsIncludes "http://h/2" "x" = false ∧
    (linkWatch.onMutate (linkDoc "http://h/2" (some { id := 2, value := "c" }))).fired =
      some [1] ∧
    firstChangedSatisfies linkWatch.attributeMap
      (getAttributeMap (linkDoc "http://h/2" (some { id := 2, value := "c" }))
        linkWatch.element linkWatch.attributes)
      linkWatch.conditions linkWatch.attributes 0 = false := by
  decide

/-- C2, amended: take an attribute-change request with a list of conditions
and an evaluation in which every watched attribute that has a paired condition
is read as a string (the `href` of a link). The evaluation completes, and it
invokes the callback iff some watched attribute, at its place `i` in declared
order, is read differently than in the snapshot and either has no paired
condition or has a new value that contains the paired condition. It need not
be the first changed attribute: a changed attribute whose condition is not met
does not end the scan. -/
theorem attribute_change_fires_iff (m : Moraf) (doc : Doc) (cs : List (Option Cond))
    (h : m.type = .change) (hc : m.conditions = .array cs)
    (hs : ∀ (i : Nat) (name : String) (c : Cond), m.attributes[i]? = some name →
      (Conditions.array cs).lookup i = some (some c) →
      ∃ v, (getAttributeMap doc m.element m.attributes).get name = .string v) :
    (m.onMutate doc).threw = false ∧
    ((m.onMutate doc).fired ≠ none ↔
      ∃ (i : Nat) (name : String), m.attributes[i]? = some name ∧
        m.attributeMap.get name ≠ (getAttributeMap doc m.element m.attributes).get name ∧
        ((Conditions.array cs).lookup i = some none ∨
          ∃ c v, (Conditions.array cs).lookup i = some (some c) ∧
            (getAttributeMap doc m.element m.attributes).get name = .string v ∧
            jsIncludes v c.toJsString = true)) := by
  have hna : ∀ j n, m.attributes[j]? = some n →
      ¬ aborts m.attributeMap (getAttributeMap doc m.element m.attributes)
        m.conditions n (0 + j) := by
    intro j n hn ⟨_, ha⟩
    rw [hc, Nat.zero_add] at ha
    rcases ha with ha | ⟨c, hl, ha⟩
    · simp only [Conditions.lookup] at ha
      split at ha <;> simp at ha
    · obtain ⟨v, hv⟩ := hs j n c hn hl
      exact ha v hv
  constructor
  · have := scanAttributes_no_throw m.attributeMap
      (getAttributeMap doc m.element m.attributes) m.conditions m.attributes 0 hna
    cases hthrew : (m.onMutate doc).threw with
    | false => rfl
    | true => exact absurd ((onMutate_change_threw doc m h).mp hthrew) this
  · rw [onMutate_change_fired doc m h, scanAttributes_fire_iff, ← hc]
    constructor
    · rintro ⟨i, name, hi, hq, _⟩
      rw [Nat.zero_add] at hq
      exact ⟨i, name, hi, hq.1, hq.2⟩
    · rintro ⟨i, name, hi, hne, hcond⟩
      refine ⟨i, name, hi, ?_, ?_⟩
      · rw [Nat.zero_add]
        exact ⟨hne, hcond⟩
      · intro j n _ hn
        exact hna j n hn

/-- C2, amended, at the input of the counterexample: the `href` of the link
goes from `http://h/1` to `http://h/2`, which does not contain its condition
`"x"`, and a `class` attribute, which has no paired condition, is added: the
callback is invoked. -/
theorem attribute_change_fires_iff_witness :
    (linkWatch.onMutate (linkDoc "http://h/2" (some { id := 2, value := "c" }))).fired =
      some [1] ∧
    ((linkWatch.onMutate (linkDoc "http://h/2" (some { id := 2, value := "c" }))).threw =
      false ∧
    ((linkWatch.onMutate (linkDoc "http://h/2" (some { id := 2, value := "c" }))).fired ≠
        none ↔
      ∃ (i : Nat) (name : String), linkWatch.attributes[i]? = some name ∧
        linkWatch.attributeMap.get name ≠
          (getAttributeMap (linkDoc "http://h/2" (some { id := 2, value := "c" }))
            linkWatch.element linkWatch.attributes).get name ∧
        ((Conditions.array [some (.str "x")]).lookup i = some none ∨
          ∃ c v, (Conditions.array [some (.str "x")]).lookup i = some (some c) ∧
            (getAttributeMap (linkDoc "http://h/2" (some { id := 2, value := "c" }))
              linkWatch.element linkWatch.attributes).get name = .string v ∧
            jsIncludes v c.toJsString = true))) :=
  ⟨by decide,
    attribute_change_fires_iff linkWatch (linkDoc "http://h/2" (some { id := 2, value := "c" }))
      [some (.str "x")] rfl rfl
      (fun i name c hi hl => by
        match i, hi, hl with
        | 0, hi, _ =>
            have hn : name = "href" := by
              simpa [linkWatch, Moraf.ofData, Factory.change] using hi.symm
            subst hn
            exact ⟨"http://h/2", by decide⟩
        | i + 1, _, hl => simp [Conditions.lookup] at hl)⟩

/-! ## Text-change requests -/

/-- C3, the code at the failing input: the object `Moraf.text` hands to the
constructor has no `multi` key, so the request is fire-once. The text of node 1
goes from `"A"` to `"B"`: the callback is invoked once, the request is
deactivated and its handle is left stopped. The text goes back to `"A"`: even
if a pass is run, the callback is not invoked again. The same on the fallback
path. -/
theorem text_factory_request_fires_once :
    exampleTextData.multi = none ∧
    (run true {} textBurst1).calls = [{ moraf := 0, callback := 7, payload := [1] }] ∧
    (run true {} textBurst1).allMorafs.map (fun m => m.active) = [false] ∧
    (run true {} textBurst1).allManagers.map
      (fun g => (g.active, g.observer.map (Observer.live true))) = [(false, some false)] ∧
    (run true {} (textBurst1 ++ textBurst2)).calls =
      [{ moraf := 0, callback := 7, payload := [1] }] ∧
    (run false {} (textBurst1 ++ textBurst2)).calls =
      [{ moraf := 0, callback := 7, payload := [1] }] := by
  decide

theorem onMutate_text_eq (m : Moraf) (doc : Doc) (h : m.type = .text) :
    (m.onMutate doc).moraf.text = some (doc.textContent m.element) ∧
    (m.onMutate doc).moraf.type = .text ∧
    (m.onMutate doc).moraf.element = m.element ∧
    (m.onMutate doc).threw = false := by
  unfold Moraf.onMutate
  simp only [h]
  split <;> simp [h]

/-- When the callback of a text-change request is a function, every
evaluation of the request, whatever its outcome, completes and leaves the
stored text equal to the current text content of the node; so an evaluation
that follows with the text unchanged does not invoke the callback. -/
theorem text_baseline_is_latest_text (m : Moraf) (doc : Doc) (h : m.type = .text) :
    (m.onMutate doc).threw = false ∧
    (m.onMutate doc).moraf.text = some (doc.textContent m.element) ∧
    ((m.onMutate doc).moraf.onMutate doc).fired = none := by
  obtain ⟨h1, h2, h3, h4⟩ := onMutate_text_eq m doc h
  refine ⟨h4, h1, ?_⟩
  generalize (m.onMutate doc).moraf = m1 at h1 h2 h3
  unfold Moraf.onMutate
  simp only [h2]
  simp [h1, h3]

/-! ## Attribute-change requests built without attribute names -/

theorem scanAttributes_nil (old new : AttributeMap) (conds : Conditions) (k : Nat) :
    scanAttributes old new conds [] k = .done := rfl

/-- C4, the code at the failing input: `Moraf.change` called without attribute
names hands the constructor the empty array, which is truthy, so no attribute
is watched, the loop of `onMutate` has nothing to scan and no evaluation of the
request invokes the callback, whatever the document. For node 1 whose class
goes from `"x"` to `"y"` the pass invokes nothing. -/
theorem change_without_names_never_fires :
    (∀ (doc0 doc : Doc) (element : Node) (callback : Nat) (multiArg : Option Bool),
      (Factory.change element none none callback multiArg).attributes = [] ∧
      ((Moraf.ofData doc0 (Factory.change element none none callback multiArg)).onMutate
        doc).fired = none) ∧
    (exampleDoc "" "" "x" "").attr 1 "class" ≠ (exampleDoc "" "" "y" "").attr 1 "class" ∧
    (run true {} changeAllTrace).rafCount = 1 ∧
    (run true {} changeAllTrace).calls = [] ∧
    (run false {} changeAllTrace).calls = [] := by
  refine ⟨?_, by decide, by decide, by decide, by decide⟩
  intro doc0 doc element callback multiArg
  refine ⟨rfl, ?_⟩
  simp [Moraf.onMutate, Moraf.ofData, Factory.change, scanAttributes]

theorem length_updateAt {α : Type} (l : List α) (k : Nat) (f : α → α) :
    (updateAt l k f).length = l.length := by
  unfold updateAt; split <;> simp

theorem getElem?_updateAt {α : Type} (l : List α) (k j : Nat) (f : α → α) :
    (updateAt l k f)[j]? = if j = k then l[j]?.map f else l[j]? := by
  unfold updateAt
  split
  · rename_i a ha
    rw [List.getElem?_set]
    by_cases h : k = j
    · subst h; simp [ha, (List.getElem?_eq_some.mp ha).1]
    · simp [h, Ne.symm h]
  · rename_i ha
    by_cases h : j = k
    · subst h; simp [ha]
    · simp [h]

theorem updateAt_append_length {α : Type} (l : List α) (a : α) (f : α → α) :
    updateAt (l ++ [a]) l.length f = l ++ [f a] := by
  unfold updateAt
  simp

theorem onMutate_fields (doc : Doc) (m : Moraf) :
    (m.onMutate doc).moraf.type = m.type ∧ (m.onMutate doc).moraf.element = m.element ∧
    (m.onMutate doc).moraf.callback = m.callback ∧ (m.onMutate doc).moraf.multi = m.multi ∧
    (m.onMutate doc).moraf.manager = m.manager ∧ (m.onMutate doc).moraf.init = m.init := by
  unfold Moraf.onMutate
  cases ht : m.type <;> simp only
  · split_ifs <;> simp [ht]
  · generalize scanAttributes _ _ _ _ _ = sc
    cases sc <;> simp [ht]
  · split_ifs <;> simp [ht]
  · simp [ht]

@[simp] theorem onMutate_type (doc : Doc) (m : Moraf) : (m.onMutate doc).moraf.type = m.type :=
  (onMutate_fields doc m).1

@[simp] theorem onMutate_element (doc : Doc) (m : Moraf) :
    (m.onMutate doc).moraf.element = m.element :=
  (onMutate_fields doc m).2.1

@[simp] theorem onMutate_callback (doc : Doc) (m : Moraf) :
    (m.onMutate doc).moraf.callback = m.callback :=
  (onMutate_fields doc m).2.2.1

@[simp] theorem onMutate_multi (doc : Doc) (m : Moraf) :
    (m.onMutate doc).moraf.multi = m.multi :=
  (onMutate_fields doc m).2.2.2.1

@[simp] theorem onMutate_manager (doc : Doc) (m : Moraf) :
    (m.onMutate doc).moraf.manager = m.manager :=
  (onMutate_fields doc m).2.2.2.2.1

@[simp] theorem onMutate_init (doc : Doc) (m : Moraf) :
    (m.onMutate doc).moraf.init = m.init :=
  (onMutate_fields doc m).2.2.2.2.2

theorem onMutate_active_mono (doc : Doc) (m : Moraf) (h : (m.onMutate doc).moraf.active = true) :
    m.active = true := by
  unfold Moraf.onMutate at h
  cases ht : m.type <;> simp only [ht] at h
  · split_ifs at h <;> simp_all
  · generalize scanAttributes _ _ _ _ _ = sc at h
    cases sc <;> simp only at h <;> (try split_ifs at h) <;> simp_all
  · split_ifs at h <;> simp_all
  · exact h

theorem onMutate_fired_once (doc : Doc) (m : Moraf) (hf : (m.onMutate doc).fired ≠ none)
    (hm : notMulti m.multi = true) : (m.onMutate doc).moraf.active = false := by
  unfold Moraf.onMutate at hf ⊢
  cases ht : m.type <;> simp only [ht] at hf ⊢
  · split_ifs at hf ⊢ <;> simp_all
  · generalize scanAttributes _ _ _ _ _ = sc at hf ⊢
    cases sc <;> simp_all
  · split_ifs at hf ⊢ <;> simp_all
  · exact absurd rfl hf

@[simp] theorem regEval_type (doc : Doc) (m : Moraf) : (regEval doc m).moraf.type = m.type := by
  unfold regEval; split <;> simp

@[simp] theorem regEval_element (doc : Doc) (m : Moraf) :
    (regEval doc m).moraf.element = m.element := by
  unfold regEval; split <;> simp

@[simp] theorem regEval_multi (doc : Doc) (m : Moraf) :
    (regEval doc m).moraf.multi = m.multi := by
  unfold regEval; split <;> simp

@[simp] theorem regEval_init (doc : Doc) (m : Moraf) :
    (regEval doc m).moraf.init = m.init := by
  unfold regEval; split <;> simp

theorem regEval_fired_once (doc : Doc) (m : Moraf) (hf : (regEval doc m).fired ≠ none)
    (hm : notMulti m.multi = true) : (regEval doc m).moraf.active = false := by
  unfold regEval at hf ⊢
  split
  · rename_i h; rw [if_pos h] at hf; exact onMutate_fired_once doc m hf hm
  · rename_i h; rw [if_neg h] at hf; exact absurd rfl hf

theorem new_none (native : Bool) (doc : Doc) (data : MorafData) (s : State)
    (h : findManager data.element s.allManagers = none) :
    Moraf.new native doc data s =
      { s with
        allMorafs := s.allMorafs ++
          [{ (regEval doc (Moraf.ofData doc data)).moraf with manager := some s.allManagers.length }]
        allManagers := s.allManagers ++ [
            { element := data.element, type := data.type, init := (Moraf.ofData doc data).init,
              active := (regEval doc (Moraf.ofData doc data)).moraf.active,
              morafs := [s.allMorafs.length],
              observer := if (regEval doc (Moraf.ofData doc data)).moraf.active then
                  some (Observer.observe native (s.timerIds + 1) {}) else none }]
        calls := s.calls ++ callsOf s.allMorafs.length data.callback
          (regEval doc (Moraf.ofData doc data)).fired
        timerIds := if (regEval doc (Moraf.ofData doc data)).moraf.active = true ∧ native = false
          then s.timerIds + 1 else s.timerIds } := by
  unfold Moraf.new Moraf.getManager
  simp only [List.getElem?_concat_length]
  have he : (Moraf.ofData doc data).element = data.element := rfl
  have ht : (Moraf.ofData doc data).type = data.type := rfl
  have hcb : (Moraf.ofData doc data).callback = data.callback := rfl
  simp only [he, h]
  unfold MorafManager.new
  simp only [List.getElem?_concat_length]
  by_cases hc : (Moraf.ofData doc data).type = .create
  · simp only [hc, evalMoraf, regEval, List.getElem?_concat_length, if_true]
    simp [updateAt_append_length, freshTimer, he, hcb, ← ht, hc]
    split <;> simp_all
  · simp only [hc, evalMoraf, regEval, List.getElem?_concat_length, if_false]
    simp [updateAt_append_length, freshTimer, he, hcb, ← ht, hc, callsOf]
    split <;> simp_all

theorem findManager_some {element : Node} {gs : List MorafManager} {k : Nat}
    (h : findManager element gs = some k) : ∃ g, gs[k]? = some g ∧ g.element = element := by
  induction gs generalizing k with
  | nil => simp [findManager] at h
  | cons g gs ih =>
      unfold findManager at h
      split_ifs at h with he
      · simp only [Option.some.injEq] at h
        subst h
        exact ⟨g, by simp, he.symm⟩
      · simp only [Option.map_eq_some'] at h
        obtain ⟨k1, hk1, rfl⟩ := h
        obtain ⟨g1, hg1, hel⟩ := ih hk1
        exact ⟨g1, by simpa using hg1, hel⟩

theorem findManager_none {element : Node} {gs : List MorafManager}
    (h : findManager element gs = none) : element ∉ gs.map (fun g => g.element) := by
  induction gs with
  | nil => simp
  | cons g gs ih =>
      unfold findManager at h
      split_ifs at h with he
      simp only [Option.map_eq_none'] at h
      simp only [List.map_cons, List.mem_cons, not_or]
      exact ⟨he, ih h⟩

theorem new_some (native : Bool) (doc : Doc) (data : MorafData) (s : State) (k : Nat)
    (g : MorafManager) (h : findManager data.element s.allManagers = some k)
    (hg : s.allManagers[k]? = some g) :
    Moraf.new native doc data s =
      { s with
        allMorafs := s.allMorafs ++
          [{ (regEval doc (Moraf.ofData doc data)).moraf with manager := some k }]
        allManagers := s.allManagers.set k
          (if (regEval doc (Moraf.ofData doc data)).moraf.active = true then
            { g with
              morafs := g.morafs ++ [s.allMorafs.length]
              observer := some (Observer.observe native (s.timerIds + 1) (g.observer.getD {}))
              active := true }
          else { g with morafs := g.morafs ++ [s.allMorafs.length] })
        calls := s.calls ++ callsOf s.allMorafs.length data.callback
          (regEval doc (Moraf.ofData doc data)).fired
        timerIds := if (regEval doc (Moraf.ofData doc data)).moraf.active = true ∧ native = false
          then s.timerIds + 1 else s.timerIds } := by
  unfold Moraf.new Moraf.getManager
  simp only [List.getElem?_concat_length]
  have he : (Moraf.ofData doc data).element = data.element := rfl
  have ht : (Moraf.ofData doc data).type = data.type := rfl
  have hcb : (Moraf.ofData doc data).callback = data.callback := rfl
  have hk : k < s.allManagers.length := (List.getElem?_eq_some.mp hg).1
  simp only [he, h]
  unfold MorafManager.add
  simp only [List.getElem?_concat_length]
  by_cases hc : (Moraf.ofData doc data).type = .create
  · simp only [hc, evalMoraf, regEval, List.getElem?_concat_length, if_true]
    simp [updateAt_append_length, freshTimer, he, hcb, ← ht, hc, callsOf]
    split
    · simp [MorafManager.observe, updateAt, hg, hk, freshTimer]
      cases native <;> simp_all
    · simp [MorafManager.observe, updateAt, hg, hk, freshTimer]
      simp_all
  · simp only [hc, evalMoraf, regEval, List.getElem?_concat_length, if_false]
    simp [updateAt_append_length, freshTimer, he, hcb, ← ht, hc, callsOf]
    split
    · simp [MorafManager.observe, updateAt, hg, hk, freshTimer]
      cases native <;> simp_all
    · simp [MorafManager.observe, updateAt, hg, hk, freshTimer]
      simp_all

/-! ## The invariant is kept -/

theorem GroupStep.rfl (g : MorafManager) : GroupStep g g :=
  ⟨Eq.refl _, fun _ h => h, fun h => h, fun h => Or.inl h⟩

theorem forall₂_groupStep_refl (gs : List MorafManager) : List.Forall₂ GroupStep gs gs := by
  induction gs with
  | nil => exact List.Forall₂.nil
  | cons g gs ih => exact List.Forall₂.cons (GroupStep.rfl g) ih

theorem forall₂_getElem? {α : Type} {R : α → α → Prop} {l l1 : List α}
    (h : List.Forall₂ R l l1) :
    ∀ (k : Nat) (a : α), l[k]? = some a → ∃ a1, l1[k]? = some a1 ∧ R a a1 := by
  induction h with
  | nil => intro k a hk; simp at hk
  | cons hr _ ih =>
      intro k a hk
      cases k with
      | zero =>
          simp only [List.getElem?_cons_zero, Option.some.injEq] at hk
          subst hk
          exact ⟨_, by simp, hr⟩
      | succ k =>
          simp only [List.getElem?_cons_succ] at hk
          obtain ⟨a1, h1, h2⟩ := ih k a hk
          exact ⟨a1, by simpa using h1, h2⟩

theorem forall₂_mem_right {α : Type} {R : α → α → Prop} {l l1 : List α}
    (h : List.Forall₂ R l l1) : ∀ a1 ∈ l1, ∃ a ∈ l, R a a1 := by
  induction h with
  | nil => intro a1 ha; simp at ha
  | cons hr _ ih =>
      intro a1 ha
      simp only [List.mem_cons] at ha
      rcases ha with rfl | ha
      · exact ⟨_, List.mem_cons_self _ _, hr⟩
      · obtain ⟨a, h1, h2⟩ := ih a1 ha
        exact ⟨a, List.mem_cons_of_mem _ h1, h2⟩

theorem forall₂_groupStep_elements {gs gs1 : List MorafManager}
    (h : List.Forall₂ GroupStep gs gs1) :
    (gs1.map fun g => g.element) = gs.map fun g => g.element := by
  induction h with
  | nil => rfl
  | cons hr _ ih => simp [hr.1, ih]

theorem forall₂_set {α : Type} {R : α → α → Prop} (hrefl : ∀ a, R a a) :
    ∀ (l : List α) (k : Nat) (a a1 : α), l[k]? = some a → R a a1 →
      List.Forall₂ R l (l.set k a1) := by
  intro l
  induction l with
  | nil => intro k a a1 hk; simp at hk
  | cons b l ih =>
      intro k a a1 hk hr
      cases k with
      | zero =>
          simp only [List.getElem?_cons_zero, Option.some.injEq] at hk
          subst hk
          refine List.Forall₂.cons hr ?_
          clear ih
          induction l with
          | nil => exact List.Forall₂.nil
          | cons c l ih2 => exact List.Forall₂.cons (hrefl c) ih2
      | succ k =>
          simp only [List.getElem?_cons_succ] at hk
          exact List.Forall₂.cons (hrefl b) (ih k a a1 hk hr)

theorem forall₂_updateAt (gs : List MorafManager) (k : Nat) (f : MorafManager → MorafManager)
    (h : ∀ g, gs[k]? = some g → GroupStep g (f g)) :
    List.Forall₂ GroupStep gs (updateAt gs k f) := by
  unfold updateAt
  split
  · rename_i g hg
    exact forall₂_set GroupStep.rfl gs k g (f g) hg (h g hg)
  · exact forall₂_groupStep_refl gs

theorem InvGroups.groupStep {ms : List Moraf} {gs gs1 : List MorafManager}
    (inv : InvGroups ms gs) (h : List.Forall₂ GroupStep gs gs1) : InvGroups ms gs1 where
  nodup := by rw [forall₂_groupStep_elements h]; exact inv.nodup
  owner := by
    intro i m hm
    obtain ⟨k, g, h1, h2, h3, h4, h5⟩ := inv.owner i m hm
    obtain ⟨g1, hg1, hr⟩ := forall₂_getElem? h k g h2
    exact ⟨k, g1, h1, hg1, hr.1.trans h3, hr.2.1 i h4, fun ha => hr.2.2.1 (h5 ha)⟩
  handle := by
    intro g1 hg1 ha
    obtain ⟨g, hg, hr⟩ := forall₂_mem_right h g1 hg1
    rcases hr.2.2.2 ha with h1 | h1
    · exact hr.2.2.1 (inv.handle g hg h1)
    · exact h1

theorem InvGroups.set_moraf {ms : List Moraf} {gs : List MorafManager} (inv : InvGroups ms gs)
    (i : Nat) (m m1 : Moraf) (hm : ms[i]? = some m) (he : m1.element = m.element)
    (hk : m1.manager = m.manager) (ha : m1.active = true → m.active = true) :
    InvGroups (ms.set i m1) gs where
  nodup := inv.nodup
  owner := by
    intro j mj hj
    rw [List.getElem?_set] at hj
    split_ifs at hj with hij hlt
    · simp only [Option.some.injEq] at hj
      subst hj hij
      obtain ⟨k, g, h1, h2, h3, h4, h5⟩ := inv.owner i m hm
      exact ⟨k, g, hk.trans h1, h2, h3.trans he.symm, h4, fun h => h5 (ha h)⟩
    · exact inv.owner j mj hj
  handle := inv.handle

theorem callCount_append (calls calls1 : List Call) (i : Nat) :
    callCount (calls ++ calls1) i = callCount calls i + callCount calls1 i := by
  simp [callCount]

theorem callCount_callsOf (i j cb : Nat) (fired : Option (List Node)) :
    callCount (callsOf i cb fired) j = if i = j ∧ fired ≠ none then 1 else 0 := by
  cases fired with
  | none => simp [callsOf, callCount]
  | some p =>
      by_cases h : i = j
      · simp [callsOf, callCount, h]
      · simp [callsOf, callCount, h]

theorem callCount_eq_zero (calls : List Call) (i : Nat) (h : ∀ c ∈ calls, c.moraf ≠ i) :
    callCount calls i = 0 := by
  simp only [callCount, List.length_eq_zero, List.filter_eq_nil_iff]
  intro c hc
  simpa using h c hc

theorem mem_callsOf {i cb : Nat} {fired : Option (List Node)} {c : Call}
    (h : c ∈ callsOf i cb fired) : c.moraf = i := by
  cases fired with
  | none => simp [callsOf] at h
  | some p =>
      simp only [callsOf, List.mem_singleton] at h
      rw [h]

/-- An evaluation of the active request at index `i` keeps the invariant of
the recorded invocations. -/
theorem InvCalls.afterEval {ms : List Moraf} {calls : List Call} (inv : InvCalls ms calls)
    (i : Nat) (m m1 : Moraf) (fired : Option (List Node)) (hm : ms[i]? = some m)
    (hact : m.active = true) (hmulti : m1.multi = m.multi)
    (honce : fired ≠ none → notMulti m.multi = true → m1.active = false) :
    InvCalls (ms.set i m1) (calls ++ callsOf i m.callback fired) where
  calls_lt := by
    intro c hc
    rw [List.length_set]
    rcases List.mem_append.mp hc with h | h
    · exact inv.calls_lt c h
    · rw [mem_callsOf h]; exact (List.getElem?_eq_some.mp hm).1
  once := by
    intro j mj hj hmj
    rw [callCount_append, callCount_callsOf]
    rw [List.getElem?_set] at hj
    split_ifs at hj with hij hlt
    · simp only [Option.some.injEq] at hj
      subst hj hij
      rw [hmulti] at hmj
      have h0 := (inv.once i m hm hmj).2 hact
      rw [h0]
      by_cases hf : fired = none
      · simp [hf]
      · have := honce hf hmj
        simp [hf, this]
    · have := inv.once j mj hj hmj
      simp only [hij, false_and, if_false, Nat.add_zero]
      exact this

theorem InvCalls.append {ms : List Moraf} {calls : List Call} (inv : InvCalls ms calls)
    (m1 : Moraf) (cb : Nat) (fired : Option (List Node))
    (honce : fired ≠ none → notMulti m1.multi = true → m1.active = false) :
    InvCalls (ms ++ [m1]) (calls ++ callsOf ms.length cb fired) where
  calls_lt := by
    intro c hc
    simp only [List.length_append, List.length_singleton]
    rcases List.mem_append.mp hc with h | h
    · have := inv.calls_lt c h; omega
    · rw [mem_callsOf h]; omega
  once := by
    intro j mj hj hmj
    rw [callCount_append, callCount_callsOf]
    by_cases hlt : j < ms.length
    · rw [List.getElem?_append_left hlt] at hj
      have := inv.once j mj hj hmj
      have hne : ¬ (ms.length = j ∧ fired ≠ none) := by omega
      simp only [hne, if_false, Nat.add_zero]
      exact this
    · have hj2 : j = ms.length := by
        have := (List.getElem?_eq_some.mp hj).1
        simp only [List.length_append, List.length_singleton] at this
        omega
      subst hj2
      simp only [List.getElem?_concat_length, Option.some.injEq] at hj
      subst hj
      have h0 : callCount calls ms.length = 0 :=
        callCount_eq_zero calls _ fun c hc => Nat.ne_of_lt (inv.calls_lt c hc)
      rw [h0]
      by_cases hf : fired = none
      · simp [hf]
      · have := honce hf hmj
        simp [hf, this]

theorem InvGroups.append_manager {ms : List Moraf} {gs : List MorafManager}
    (inv : InvGroups ms gs) (g : MorafManager)
    (hel : g.element ∉ gs.map fun g => g.element)
    (hact : g.active = true → g.observer.isSome = true) : InvGroups ms (gs ++ [g]) where
  nodup := by
    rw [List.map_append, List.nodup_append]
    refine ⟨inv.nodup, by simp, ?_⟩
    intro a ha hb
    simp only [List.map_cons, List.map_nil, List.mem_singleton] at hb
    subst hb
    exact hel ha
  owner := by
    intro i m hm
    obtain ⟨k, g0, h1, h2, h3⟩ := inv.owner i m hm
    refine ⟨k, g0, h1, ?_, h3⟩
    rw [List.getElem?_append_left (List.getElem?_eq_some.mp h2).1]
    exact h2
  handle := by
    intro g1 hg1 ha
    rcases List.mem_append.mp hg1 with h | h
    · exact inv.handle g1 h ha
    · simp only [List.mem_singleton] at h
      subst h
      exact hact ha

theorem InvGroups.append_moraf {ms : List Moraf} {gs : List MorafManager}
    (inv : InvGroups ms gs) (m1 : Moraf) (k : Nat) (g : MorafManager)
    (hk : m1.manager = some k) (hg : gs[k]? = some g) (hel : g.element = m1.element)
    (hmem : ms.length ∈ g.morafs) (hact : m1.active = true → g.observer.isSome = true) :
    InvGroups (ms ++ [m1]) gs where
  nodup := inv.nodup
  owner := by
    intro i m hm
    by_cases hlt : i < ms.length
    · rw [List.getElem?_append_left hlt] at hm
      exact inv.owner i m hm
    · have hi : i = ms.length := by
        have := (List.getElem?_eq_some.mp hm).1
        simp only [List.length_append, List.length_singleton] at this
        omega
      subst hi
      simp only [List.getElem?_concat_length, Option.some.injEq] at hm
      subst hm
      exact ⟨k, g, hk, hg, hel, hmem, hact⟩
  handle := inv.handle

/-- Constructing a request keeps the invariant. -/
theorem Inv.new {s : State} (inv : Inv s) (native : Bool) (doc : Doc) (data : MorafData) :
    Inv (Moraf.new native doc data s) := by
  have honce : (regEval doc (Moraf.ofData doc data)).fired ≠ none →
      notMulti (regEval doc (Moraf.ofData doc data)).moraf.multi = true →
      (regEval doc (Moraf.ofData doc data)).moraf.active = false := by
    intro hf hm
    rw [regEval_multi] at hm
    exact regEval_fired_once doc _ hf hm
  cases hfind : findManager data.element s.allManagers with
  | none =>
      rw [new_none native doc data s hfind]
      constructor
      · exact inv.calls.append _ data.callback _ honce
      · refine InvGroups.append_moraf (inv.groups.append_manager _ (findManager_none hfind) ?_)
          _ s.allManagers.length _ rfl (List.getElem?_concat_length _ _) ?_ ?_ ?_
        · intro h; simp only at h; simp [h]
        · simp; rfl
        · simp
        · intro h; simp only at h; simp [h]
  | some k =>
      obtain ⟨g, hg, hel⟩ := findManager_some hfind
      rw [new_some native doc data s k g hfind hg]
      have hk : k < s.allManagers.length := (List.getElem?_eq_some.mp hg).1
      constructor
      · exact inv.calls.append _ data.callback _ honce
      · refine InvGroups.append_moraf (inv.groups.groupStep
          (forall₂_set GroupStep.rfl s.allManagers k g _ hg ?_)) _ k _ rfl
          (List.getElem?_set_self hk) ?_ ?_ ?_
        · split_ifs with ha
          · exact ⟨rfl, fun i hi => List.mem_append_left _ hi, fun _ => rfl, fun _ => Or.inr rfl⟩
          · exact ⟨rfl, fun i hi => List.mem_append_left _ hi, fun h => h, fun h => Or.inl h⟩
        · split_ifs <;> simp [hel] <;> rfl
        · split_ifs <;> simp
        · intro h
          simp only at h
          simp [h]

theorem evalMoraf_eq (doc : Doc) (i : Nat) (s : State) (m : Moraf)
    (hm : s.allMorafs[i]? = some m) :
    evalMoraf doc i s =
      ({ s with
          allMorafs := s.allMorafs.set i (m.onMutate doc).moraf
          calls := s.calls ++ callsOf i m.callback (m.onMutate doc).fired },
        (m.onMutate doc).threw) := by
  unfold evalMoraf
  simp [hm]

theorem Inv.evalKept {s : State} (inv : Inv s) (doc : Doc) (i : Nat) (m : Moraf)
    (hm : s.allMorafs[i]? = some m) (hact : m.active = true) :
    Inv (evalMoraf doc i s).1 := by
  rw [evalMoraf_eq doc i s m hm]
  constructor
  · exact inv.calls.afterEval i m _ _ hm hact (onMutate_multi doc m)
      (fun hf hmu => onMutate_fired_once doc m hf hmu)
  · exact inv.groups.set_moraf i m _ hm (onMutate_element doc m) (onMutate_manager doc m)
      (onMutate_active_mono doc m)

theorem Inv.activate {s : State} (inv : Inv s) (i k : Nat) (m : Moraf)
    (hm : s.allMorafs[i]? = some m) (hact : m.active = true) (hk : m.manager = some k) :
    Inv { s with allManagers := updateAt s.allManagers k fun g => { g with active := true } } := by
  constructor
  · exact inv.calls
  · refine inv.groups.groupStep (forall₂_updateAt _ _ _ ?_)
    intro g hg
    obtain ⟨k1, g1, h1, h2, _, _, h5⟩ := inv.groups.owner i m hm
    rw [hk, Option.some.injEq] at h1
    subst h1
    rw [hg, Option.some.injEq] at h2
    subst h2
    exact ⟨rfl, fun _ h => h, fun h => h, fun _ => Or.inr (h5 hact)⟩

theorem Inv.passStep {s : State} (inv : Inv s) (docs : Nat → Doc) (i : Nat) :
    Inv (passStep docs i s).1 := by
  unfold FeScaffolding.passStep
  cases hm : s.allMorafs[i]? with
  | none => exact inv
  | some m =>
      simp only
      by_cases hact : m.active = true
      · simp only [hact, if_true]
        have inv1 := inv.evalKept (docs i) i m hm hact
        split_ifs with hthrew
        · exact inv1
        · cases hm1 : (evalMoraf (docs i) i s).1.allMorafs[i]? with
          | none => exact inv1
          | some m1 =>
              simp only
              by_cases hact1 : m1.active = true
              · simp only [hact1, if_true]
                cases hk : m1.manager with
                | none => exact inv1
                | some k => exact inv1.activate i k m1 hm1 hact1 hk
              · simp only [hact1]
                exact inv1
      · simp only [hact]
        exact inv

theorem Inv.passLoop (docs : Nat → Doc) (is : List Nat) :
    ∀ {s : State}, Inv s → Inv (passLoop docs is s).1 := by
  induction is with
  | nil => intro s inv; exact inv
  | cons i is ih =>
      intro s inv
      unfold FeScaffolding.passLoop
      simp only
      split_ifs
      · exact inv.passStep docs i
      · exact ih (inv.passStep docs i)

theorem pauseAll_step (native : Bool) (gs : List MorafManager) :
    List.Forall₂ GroupStep gs (pauseAll native gs).1 := by
  induction gs with
  | nil => exact List.Forall₂.nil
  | cons g gs ih =>
      rw [pauseAll]
      by_cases ha : g.active = true
      · simp only [ha, if_true]
        cases ho : g.observer with
        | none =>
            exact List.Forall₂.cons
              ⟨rfl, fun _ h => h, fun h => by simp [ho] at h, fun h => by simp at h⟩
              (forall₂_groupStep_refl gs)
        | some o =>
            exact List.Forall₂.cons ⟨rfl, fun _ h => h, fun _ => rfl, fun h => by simp at h⟩ ih
      · simp only [ha]
        exact List.Forall₂.cons (GroupStep.rfl g) ih

theorem resumeAll_step (native : Bool) (gs : List MorafManager) :
    ∀ ids, List.Forall₂ GroupStep gs (resumeAll native gs ids).1 := by
  induction gs with
  | nil => intro ids; exact List.Forall₂.nil
  | cons g gs ih =>
      intro ids
      rw [resumeAll]
      by_cases ha : g.active = true
      · simp only [ha, if_true]
        cases ho : g.observer with
        | none => exact forall₂_groupStep_refl _
        | some o =>
            exact List.Forall₂.cons ⟨rfl, fun _ h => h, fun _ => rfl, fun _ => Or.inr rfl⟩ (ih _)
      · simp only [ha]
        exact List.Forall₂.cons (GroupStep.rfl g) (ih _)

theorem Inv.frameCallback {s : State} (inv : Inv s) (native : Bool) (docs : Nat → Doc) :
    Inv (frameCallback native docs s).1 := by
  unfold FeScaffolding.frameCallback
  have inv0 : Inv { s with rafCount := s.rafCount + 1 } := ⟨inv.calls, inv.groups⟩
  have inv1 := Inv.passLoop docs (List.range s.allMorafs.length) inv0
  simp only
  split_ifs
  · exact inv1
  · exact ⟨inv1.calls, inv1.groups.groupStep (resumeAll_step native _ _)⟩

theorem Inv.onMutate {s : State} (inv : Inv s) (native : Bool) :
    Inv (MorafManager.onMutate native s).1 := by
  unfold MorafManager.onMutate
  simp only
  split_ifs
  · exact ⟨inv.calls, inv.groups.groupStep (pauseAll_step native _)⟩
  · exact ⟨inv.calls, inv.groups.groupStep (pauseAll_step native _)⟩

theorem Inv.step {s : State} (inv : Inv s) (native : Bool) (e : Event) :
    Inv (step native s e) := by
  cases e with
  | construct data doc => exact inv.new native doc data
  | notify => exact inv.onMutate native
  | frame docs =>
      unfold FeScaffolding.step
      simp only
      split_ifs
      · exact inv
      · have inv1 : Inv { s with frames := s.frames - 1 } := ⟨inv.calls, inv.groups⟩
        exact inv1.frameCallback native docs

theorem Inv.init : Inv {} where
  calls := ⟨by simp, by simp⟩
  groups := ⟨by simp, by simp, by simp⟩

theorem Inv.run (native : Bool) (es : List Event) : ∀ {s : State}, Inv s → Inv (run native s es) := by
  induction es with
  | nil => intro s inv; exact inv
  | cons e es ih => intro s inv; exact ih (inv.step native e)

/-! ## Inactive requests are left alone -/

theorem SameAt.transAt {i : Nat} {s s1 s2 : State} (h : SameAt i s s1) (h1 : SameAt i s1 s2) :
    SameAt i s s2 :=
  ⟨h1.1.trans h.1, h1.2.trans h.2⟩

theorem sameAt_evalMoraf (doc : Doc) (i j : Nat) (s : State) (h : j ≠ i) :
    SameAt i s (evalMoraf doc j s).1 := by
  unfold evalMoraf
  cases hm : s.allMorafs[j]? with
  | none => exact ⟨rfl, rfl⟩
  | some m =>
      constructor
      · simp [List.getElem?_set_ne h]
      · simp [callCount_append, callCount_callsOf, h]

theorem sameAt_passStep (docs : Nat → Doc) (i j : Nat) (s : State) (m : Moraf)
    (hm : s.allMorafs[i]? = some m) (hin : m.active = false) :
    SameAt i s (passStep docs j s).1 := by
  unfold passStep
  cases hj : s.allMorafs[j]? with
  | none => exact ⟨rfl, rfl⟩
  | some mj =>
      simp only
      by_cases hact : mj.active = true
      · have hne : j ≠ i := by
          rintro rfl
          rw [hm, Option.some.injEq] at hj
          subst hj
          simp [hin] at hact
        have h1 := sameAt_evalMoraf (docs j) i j s hne
        simp only [hact, if_true]
        split_ifs
        · exact h1
        · split
          · exact h1
          · split_ifs
            · split
              · exact h1
              · exact h1
            · exact h1
      · simp only [hact]
        exact ⟨rfl, rfl⟩

theorem sameAt_passLoop (docs : Nat → Doc) (i : Nat) (m : Moraf) (hin : m.active = false)
    (is : List Nat) :
    ∀ s : State, s.allMorafs[i]? = some m → SameAt i s (passLoop docs is s).1 := by
  induction is with
  | nil => intro s _; exact ⟨rfl, rfl⟩
  | cons j is ih =>
      intro s hm
      have h1 := sameAt_passStep docs i j s m hm hin
      unfold passLoop
      simp only
      split_ifs
      · exact h1
      · exact h1.transAt (ih _ (h1.1.trans hm))

theorem sameAt_new (native : Bool) (doc : Doc) (data : MorafData) (i : Nat) (s : State)
    (hi : i < s.allMorafs.length) : SameAt i s (Moraf.new native doc data s) := by
  have hne : ¬ (s.allMorafs.length = i ∧
      (regEval doc (Moraf.ofData doc data)).fired ≠ none) := by omega
  cases hfind : findManager data.element s.allManagers with
  | none =>
      rw [new_none native doc data s hfind]
      exact ⟨List.getElem?_append_left hi, by simp [callCount_append, callCount_callsOf, hne]⟩
  | some k =>
      obtain ⟨g, hg, _⟩ := findManager_some hfind
      rw [new_some native doc data s k g hfind hg]
      exact ⟨List.getElem?_append_left hi, by simp [callCount_append, callCount_callsOf, hne]⟩

theorem sameAt_step (native : Bool) (e : Event) (i : Nat) (m : Moraf) (s : State)
    (hm : s.allMorafs[i]? = some m) (hin : m.active = false) :
    SameAt i s (step native s e) := by
  cases e with
  | construct data doc => exact sameAt_new native doc data i s (List.getElem?_eq_some.mp hm).1
  | notify =>
      unfold step MorafManager.onMutate
      simp only
      split_ifs <;> exact ⟨rfl, rfl⟩
  | frame docs =>
      unfold step
      simp only
      split_ifs
      · exact ⟨rfl, rfl⟩
      · unfold frameCallback
        simp only
        have h1 := sameAt_passLoop docs i m hin (List.range s.allMorafs.length)
          { s with frames := s.frames - 1, rafCount := s.rafCount + 1 } hm
        split_ifs
        · exact h1
        · exact h1

theorem sameAt_run (native : Bool) (i : Nat) (m : Moraf) (hin : m.active = false)
    (es : List Event) :
    ∀ s : State, s.allMorafs[i]? = some m → SameAt i s (run native s es) := by
  induction es with
  | nil => intro s _; exact ⟨rfl, rfl⟩
  | cons e es ih =>
      intro s hm
      have h1 := sameAt_step native e i m s hm hin
      exact h1.transAt (ih _ (h1.1.trans hm))

/-- C5: in every state reached from the empty registry by constructions,
notifications and frame callbacks, a fire-once request (`multi` is not `true`)
has had its callback invoked at most once; and once a request is inactive,
whatever events follow and whatever the documents read, its record stays as it
is (its active flag stays false, no evaluation touches its snapshot or
processed set) and no invocation of its callback is added. -/
theorem fire_once_invoked_at_most_once (native : Bool) (es : List Event) (i : Nat) (m : Moraf)
    (hm : (run native {} es).allMorafs[i]? = some m) (hmulti : notMulti m.multi = true) :
    callCount (run native {} es).calls i ≤ 1 ∧
    (m.active = false → ∀ es1 : List Event,
      (run native (run native {} es) es1).allMorafs[i]? = some m ∧
      callCount (run native (run native {} es) es1).calls i =
        callCount (run native {} es).calls i) := by
  refine ⟨((Inv.run native es Inv.init).calls.once i m hm hmulti).1, ?_⟩
  intro hin es1
  have h := sameAt_run native i m hin es1 _ hm
  exact ⟨h.1.trans hm, h.2⟩

/-- C5, at a concrete input: the text request of `textBurst1`, which is
fire-once, after two bursts. -/
theorem fire_once_invoked_at_most_once_witness :
    callCount (run true {} (textBurst1 ++ textBurst2)).calls 0 = 1 ∧
    (callCount (run true {} (textBurst1 ++ textBurst2)).calls 0 ≤ 1 ∧
    (exampleTextDone.active = false → ∀ es1 : List Event,
      (run true (run true {} (textBurst1 ++ textBurst2)) es1).allMorafs[0]? =
        some exampleTextDone ∧
      callCount (run true (run true {} (textBurst1 ++ textBurst2)) es1).calls 0 =
        callCount (run true {} (textBurst1 ++ textBurst2)).calls 0)) :=
  ⟨by decide,
    fire_once_invoked_at_most_once true (textBurst1 ++ textBurst2) 0 exampleTextDone
      (by decide) (by decide)⟩

/-! ## One group per node -/

/-- As long as every callback is a function that leaves the watch system
alone (the runs of `run`), no two managers have the same element, and any two
requests on the same element point at the same manager, which has that element
and holds both of them (so they share its one `observer` field). -/
theorem one_group_per_node (native : Bool) (es : List Event) :
    ((run native {} es).allManagers.map fun g => g.element).Nodup ∧
    ∀ (i j : Nat) (m m1 : Moraf),
      (run native {} es).allMorafs[i]? = some m →
      (run native {} es).allMorafs[j]? = some m1 →
      m.element = m1.element →
      ∃ (k : Nat) (g : MorafManager), m.manager = some k ∧ m1.manager = some k ∧
        (run native {} es).allManagers[k]? = some g ∧ g.element = m.element ∧
        i ∈ g.morafs ∧ j ∈ g.morafs := by
  have inv := (Inv.run native es Inv.init).groups
  refine ⟨inv.nodup, ?_⟩
  intro i j m m1 hm hm1 hel
  obtain ⟨k, g, h1, h2, h3, h4, _⟩ := inv.owner i m hm
  obtain ⟨k1, g1, h5, h6, h7, h8, _⟩ := inv.owner j m1 hm1
  have hk : k1 = k := by
    have hlt := (List.getElem?_eq_some.mp h2).1
    have hlt1 := (List.getElem?_eq_some.mp h6).1
    have e : ((run native {} es).allManagers.map fun g => g.element)[k1]? =
        ((run native {} es).allManagers.map fun g => g.element)[k]? := by
      simp [List.getElem?_map, h2, h6, h3, h7, hel]
    have hl : k1 < ((run native {} es).allManagers.map fun g => g.element).length := by
      simpa using hlt1
    have hl0 : k < ((run native {} es).allManagers.map fun g => g.element).length := by
      simpa using hlt
    rw [List.getElem?_eq_getElem hl, List.getElem?_eq_getElem hl0, Option.some.injEq] at e
    exact (List.Nodup.getElem_inj_iff inv.nodup).mp e
  subst hk
  rw [h2, Option.some.injEq] at h6
  subst h6
  exact ⟨k1, g, h1, h5, h2, h3, h4, h8⟩

/-! ## Notifications and frame callbacks -/

theorem SameCounters.transCounters {s s1 s2 : State} (h : SameCounters s s1) (h1 : SameCounters s1 s2) :
    SameCounters s s2 :=
  ⟨h1.1.trans h.1, h1.2.1.trans h.2.1, h1.2.2.trans h.2.2⟩

theorem sameCounters_evalMoraf (doc : Doc) (j : Nat) (s : State) :
    SameCounters s (evalMoraf doc j s).1 := by
  unfold evalMoraf
  split <;> exact ⟨rfl, rfl, rfl⟩

theorem sameCounters_passStep (docs : Nat → Doc) (j : Nat) (s : State) :
    SameCounters s (passStep docs j s).1 := by
  unfold passStep
  have h1 := sameCounters_evalMoraf (docs j) j s
  cases hj : s.allMorafs[j]? with
  | none => exact ⟨rfl, rfl, rfl⟩
  | some mj =>
      simp only
      by_cases hact : mj.active = true
      · simp only [hact, if_true]
        split_ifs
        · exact h1
        · split
          · exact h1
          · split_ifs
            · split
              · exact h1
              · exact h1
            · exact h1
      · simp only [hact]
        exact ⟨rfl, rfl, rfl⟩

theorem sameCounters_passLoop (docs : Nat → Doc) (is : List Nat) :
    ∀ s : State, SameCounters s (passLoop docs is s).1 := by
  induction is with
  | nil => intro s; exact ⟨rfl, rfl, rfl⟩
  | cons j is ih =>
      intro s
      unfold passLoop
      simp only
      split_ifs
      · exact sameCounters_passStep docs j s
      · exact (sameCounters_passStep docs j s).transCounters (ih _)

theorem sameCounters_new (native : Bool) (doc : Doc) (data : MorafData) (s : State) :
    SameCounters s (Moraf.new native doc data s) := by
  cases hfind : findManager data.element s.allManagers with
  | none =>
      rw [new_none native doc data s hfind]
      exact ⟨rfl, rfl, rfl⟩
  | some k =>
      obtain ⟨g, hg, _⟩ := findManager_some hfind
      rw [new_some native doc data s k g hfind hg]
      exact ⟨rfl, rfl, rfl⟩

theorem pauseAll_ok (native : Bool) (gs : List MorafManager)
    (h : ∀ g ∈ gs, g.active = true → g.observer.isSome = true) :
    (pauseAll native gs).2 = false := by
  induction gs with
  | nil => rfl
  | cons g gs ih =>
      have ih1 := ih fun g1 hg1 => h g1 (List.mem_cons_of_mem _ hg1)
      rw [pauseAll]
      by_cases ha : g.active = true
      · have ho := h g (List.mem_cons_self _ _) ha
        simp only [ha, if_true]
        cases hobs : g.observer with
        | none => simp [hobs] at ho
        | some o => exact ih1
      · simp only [ha]
        exact ih1

theorem notify_counters {s : State} (inv : Inv s) (native : Bool) :
    (step native s .notify).mutationCount = s.mutationCount + 1 ∧
    (step native s .notify).rafCount = s.rafCount ∧
    (step native s .notify).frames = s.frames + 1 := by
  unfold step MorafManager.onMutate
  simp [pauseAll_ok native s.allManagers inv.groups.handle]

theorem frame_counters (native : Bool) (docs : Nat → Doc) (s : State) (h : s.frames ≠ 0) :
    (step native s (.frame docs)).mutationCount = s.mutationCount ∧
    (step native s (.frame docs)).rafCount = s.rafCount + 1 ∧
    (step native s (.frame docs)).frames = s.frames - 1 := by
  unfold step frameCallback
  simp only [h, if_false]
  have h1 := sameCounters_passLoop docs (List.range s.allMorafs.length)
    { s with frames := s.frames - 1, rafCount := s.rafCount + 1 }
  split_ifs
  · exact h1
  · exact h1

theorem run_append (native : Bool) (s : State) (es es1 : List Event) :
    run native s (es ++ es1) = run native (run native s es) es1 := by
  simp [run, List.foldl_append]

theorem run_notifications (native : Bool) (k : Nat) :
    ∀ s : State, Inv s →
      (run native s (List.replicate k .notify)).frames = s.frames + k ∧
      (run native s (List.replicate k .notify)).rafCount = s.rafCount ∧
      (run native s (List.replicate k .notify)).mutationCount = s.mutationCount + k := by
  induction k with
  | zero => intro s _; exact ⟨rfl, rfl, rfl⟩
  | succ k ih =>
      intro s inv
      have h1 := notify_counters inv native
      have h2 := ih _ (inv.step native .notify)
      simp only [List.replicate_succ, run, List.foldl_cons] at h2 ⊢
      rw [h2.1, h2.2.1, h2.2.2, h1.1, h1.2.1, h1.2.2]
      exact ⟨by omega, rfl, by omega⟩

theorem run_frames (native : Bool) (docs : Nat → Doc) (n : Nat) :
    ∀ s : State, n ≤ s.frames →
      (run native s (List.replicate n (.frame docs))).rafCount = s.rafCount + n ∧
      (run native s (List.replicate n (.frame docs))).frames = s.frames - n ∧
      (run native s (List.replicate n (.frame docs))).mutationCount = s.mutationCount := by
  induction n with
  | zero => intro s _; exact ⟨rfl, rfl, rfl⟩
  | succ n ih =>
      intro s hn
      have h1 := frame_counters native docs s (by omega)
      have h2 := ih (step native s (.frame docs)) (by rw [h1.2.2]; omega)
      simp only [List.replicate_succ, run, List.foldl_cons] at h2 ⊢
      rw [h2.1, h2.2.1, h2.2.2, h1.1, h1.2.1, h1.2.2]
      exact ⟨by omega, by omega, rfl⟩

theorem step_balance {s : State} (inv : Inv s) (native : Bool) (e : Event)
    (h : s.mutationCount = s.rafCount + s.frames) :
    (step native s e).mutationCount = (step native s e).rafCount + (step native s e).frames := by
  cases e with
  | construct data doc =>
      have hc := sameCounters_new native doc data s
      show (Moraf.new native doc data s).mutationCount =
        (Moraf.new native doc data s).rafCount + (Moraf.new native doc data s).frames
      rw [hc.1, hc.2.1, hc.2.2]
      exact h
  | notify =>
      have hc := notify_counters inv native
      rw [hc.1, hc.2.1, hc.2.2]
      omega
  | frame docs =>
      by_cases hf : s.frames = 0
      · have : step native s (.frame docs) = s := by
          unfold step
          simp [hf]
        rw [this]
        exact h
      · have hc := frame_counters native docs s hf
        rw [hc.1, hc.2.1, hc.2.2]
        omega

theorem run_balance (native : Bool) (es : List Event) :
    ∀ {s : State}, Inv s → s.mutationCount = s.rafCount + s.frames →
      (run native s es).mutationCount = (run native s es).rafCount + (run native s es).frames := by
  induction es with
  | nil => intro s _ h; exact h
  | cons e es ih =>
      intro s inv h
      exact ih (inv.step native e) (step_balance inv native e h)

/-- C7, as stated, fails: in `twoNotifications` the second notification comes
from a live handle (the one of the group created after the first notification)
while a frame callback is already requested, and it requests another; the two
frame callbacks that follow are two evaluation passes. -/
theorem two_notifications_two_passes :
    (run true {} (twoNotifications.take 3)).frames = 1 ∧
    (run true {} (twoNotifications.take 3)).allManagers.map
      (fun g => g.observer.map (Observer.live true)) = [some false, some true] ∧
    (run true {} twoNotifications).frames = 2 ∧
    (run true {} twoNotifications).rafCount = 0 ∧
    (run true {} (twoNotifications ++
      [.frame fun _ => exampleDoc "" "" "" "A", .frame fun _ => exampleDoc "" "" "" "A"])).rafCount
      = 2 := by
  decide

/-- C7, amended: every notification requests a frame callback, whether or not
one is already requested. In any state reached from the empty registry the
notification counter is the pass counter plus the number of frame callbacks
requested and not yet run. `k` further notifications raise the notification
counter and the number of requested frame callbacks by `k`; once the requested
callbacks have run, none is left, the pass counter has grown by one for each of
them (by `k` for the `k` notifications) and equals the notification counter. -/
theorem each_notification_gets_a_pass (native : Bool) (es : List Event) (k : Nat)
    (docs : Nat → Doc) :
    (run native {} es).mutationCount = (run native {} es).rafCount + (run native {} es).frames ∧
    (run native {} (es ++ List.replicate k .notify)).mutationCount =
      (run native {} es).mutationCount + k ∧
    (run native {} (es ++ List.replicate k .notify)).frames = (run native {} es).frames + k ∧
    (run native {} (es ++ List.replicate k .notify)).rafCount = (run native {} es).rafCount ∧
    (run native {} (es ++ List.replicate k .notify ++
        List.replicate ((run native {} es).frames + k) (.frame docs))).rafCount =
      (run native {} es).rafCount + (run native {} es).frames + k ∧
    (run native {} (es ++ List.replicate k .notify ++
        List.replicate ((run native {} es).frames + k) (.frame docs))).frames = 0 ∧
    (run native {} (es ++ List.replicate k .notify ++
        List.replicate ((run native {} es).frames + k) (.frame docs))).rafCount =
      (run native {} (es ++ List.replicate k .notify ++
        List.replicate ((run native {} es).frames + k) (.frame docs))).mutationCount := by
  have inv := Inv.run native es Inv.init
  have hb := run_balance native es Inv.init rfl
  have h1 := run_notifications native k _ inv
  simp only [run_append]
  have h2 := run_frames native docs ((run native {} es).frames + k)
    (run native (run native {} es) (List.replicate k .notify)) (by rw [h1.1])
  refine ⟨hb, h1.2.2, h1.1, h1.2.1, ?_, ?_, ?_⟩
  · rw [h2.1, h1.2.1]
    omega
  · rw [h2.2.1, h1.1]
    omega
  · rw [h2.1, h2.2.2, h1.2.1, h1.2.2]
    omega

/-! ## Groups after a pass -/

/-- C8, the code at the failing input: in `lateGroupTrace` the group of node 2
is created, active and observing, after the notification that paused the
groups. In the pass both requests fire and are deactivated (each is
fire-once). The group of node 1, paused by the notification, stays stopped;
nothing clears the active flag of the group of node 2, so the second loop
calls `observe` on it: after the pass that group is active and its handle is
live although it has no active member. The same on the fallback path. -/
theorem late_group_stays_active :
    (run true {} (lateGroupTrace.take 3)).allManagers.map
      (fun g => (g.element, g.active)) = [(1, false), (2, true)] ∧
    (run true {} lateGroupTrace).rafCount = 1 ∧
    (run true {} lateGroupTrace).calls =
      [{ moraf := 0, callback := 7, payload := [1] },
        { moraf := 1, callback := 9, payload := [5] }] ∧
    (run true {} lateGroupTrace).allMorafs.map (fun m => (m.element, m.active, m.manager)) =
      [(1, false, some 0), (2, false, some 1)] ∧
    (run true {} lateGroupTrace).allManagers.map
      (fun g => (g.element, g.morafs, g.active, g.observer.map (Observer.live true))) =
      [(1, [0], false, some false), (2, [1], true, some true)] ∧
    (run false {} lateGroupTrace).allMorafs.map (fun m => (m.element, m.active, m.manager)) =
      [(1, false, some 0), (2, false, some 1)] ∧
    (run false {} lateGroupTrace).allManagers.map
      (fun g => (g.element, g.morafs, g.active, g.observer.map (Observer.live false))) =
      [(1, [0], false, some false), (2, [1], true, some true)] := by
  decide

/-! ## Requests of an unknown kind -/

/-- C9, as stated, fails: constructing a request of the unknown kind `"hover"`
in the empty registry (on the fallback path) puts the request, active, into
`allMorafs` and creates a manager for its node that holds it, is active and has
a live handle. -/
theorem unknown_kind_is_accepted :
    (Moraf.new false (exampleDoc "" "" "" "") hoverData {}).allMorafs.map
      (fun m => (m.type, m.element, m.active, m.manager)) =
      [(.other "hover", 1, true, some 0)] ∧
    (Moraf.new false (exampleDoc "" "" "" "") hoverData {}).allManagers.map
      (fun g => (g.element, g.morafs, g.active, g.observer.map (Observer.live false))) =
      [(1, [0], true, some true)] := by
  decide

theorem onMutate_other (doc : Doc) (m : Moraf) (name : String) (h : m.type = .other name) :
    m.onMutate doc = { moraf := m, fired := none, threw := false } := by
  unfold Moraf.onMutate
  simp [h]

/-- C9, amended: on the fallback path the construction of a request of an
unknown kind raises no error, for the constructor makes no check of the kind.
In any state it appends the request to `allMorafs` as an active request and
attaches it to the manager of its element (found or newly created), which holds
it, is active and has an observer; no invocation is recorded, and every
evaluation of the request leaves it as it is and invokes nothing. -/
theorem unknown_kind_is_registered (doc : Doc) (data : MorafData) (s : State)
    (name : String) (h : data.type = .other name) :
    ∃ (m : Moraf) (k : Nat) (g : MorafManager),
      (Moraf.new false doc data s).allMorafs = s.allMorafs ++ [m] ∧
      m.type = .other name ∧ m.active = true ∧ m.manager = some k ∧
      (Moraf.new false doc data s).allManagers[k]? = some g ∧
      g.element = data.element ∧ s.allMorafs.length ∈ g.morafs ∧
      g.active = true ∧ g.observer.isSome = true ∧
      (Moraf.new false doc data s).calls = s.calls ∧
      ∀ doc1 : Doc, m.onMutate doc1 = { moraf := m, fired := none, threw := false } := by
  have ht : (Moraf.ofData doc data).type = .other name := h
  have hne : (Moraf.ofData doc data).type ≠ .create := by rw [ht]; simp
  have hr : regEval doc (Moraf.ofData doc data) =
      { moraf := Moraf.ofData doc data, fired := none, threw := false } := by
    unfold regEval
    rw [if_neg hne]
  have hact : (Moraf.ofData doc data).active = true := rfl
  cases hfind : findManager data.element s.allManagers with
  | none =>
      rw [new_none false doc data s hfind, hr]
      refine ⟨_, s.allManagers.length, _, rfl, ht, hact, rfl,
        List.getElem?_concat_length _ _, rfl, by simp, hact, by simp [hact], by simp [callsOf], ?_⟩
      intro doc1
      exact onMutate_other doc1 _ name ht
  | some k =>
      obtain ⟨g, hg, hel⟩ := findManager_some hfind
      have hk : k < s.allManagers.length := (List.getElem?_eq_some.mp hg).1
      rw [new_some false doc data s k g hfind hg, hr]
      refine ⟨_, k, _, rfl, ht, hact, rfl, List.getElem?_set_self hk, ?_, ?_, ?_, ?_,
        by simp [callsOf], ?_⟩
      · simp [hact, hel]
      · simp [hact]
      · simp [hact]
      · simp [hact]
      · intro doc1
        exact onMutate_other doc1 _ name ht

/-- C9, amended, at the input of the counterexample. -/
theorem unknown_kind_is_registered_witness :
    ∃ (m : Moraf) (k : Nat) (g : MorafManager),
      (Moraf.new false (exampleDoc "" "" "" "") hoverData {}).allMorafs =
        ({} : State).allMorafs ++ [m] ∧
      m.type = .other "hover" ∧ m.active = true ∧ m.manager = some k ∧
      (Moraf.new false (exampleDoc "" "" "" "") hoverData {}).allManagers[k]? = some g ∧
      g.element = hoverData.element ∧ ({} : State).allMorafs.length ∈ g.morafs ∧
      g.active = true ∧ g.observer.isSome = true ∧
      (Moraf.new false (exampleDoc "" "" "" "") hoverData {}).calls = ({} : State).calls ∧
      ∀ doc1 : Doc, m.onMutate doc1 = { moraf := m, fired := none, threw := false } :=
  unknown_kind_is_registered (exampleDoc "" "" "" "") hoverData {} "hover" rfl

/-! ## One evaluation of a creation request -/

theorem filter_contains_eq (processed l : List Node) :
    (l.filter fun x => !(processed.contains x)) = l.filter fun x => decide (x ∉ processed) := by
  apply List.filter_congr
  intro x _
  simp

/-- C11: one evaluation of a Creation request is the reference definition.
With `R` the current matches minus the processed set: if `R` is non-empty the
callback is invoked with `R` (one invocation is recorded), `processed` becomes
the old list followed by `R`, and the request is inactive afterwards iff it was
inactive or is not repeating; if `R` is empty nothing is invoked and the
request is unchanged. -/
theorem create_evaluation_is_reference (m : Moraf) (doc : Doc) (h : m.type = .create) :
    m.onMutate doc = createReference doc m ∧
    ((doc.query m.element m.selector).filter (fun x => decide (x ∉ m.processed)) ≠ [] →
      (m.onMutate doc).fired =
        some ((doc.query m.element m.selector).filter fun x => decide (x ∉ m.processed)) ∧
      (m.onMutate doc).moraf.processed = m.processed ++
        (doc.query m.element m.selector).filter (fun x => decide (x ∉ m.processed)) ∧
      ((m.onMutate doc).moraf.active = false ↔ (m.active = false ∨ m.multi ≠ some true)) ∧
      ∀ (s : State) (i : Nat), s.allMorafs[i]? = some m →
        (evalMoraf doc i s).1.calls = s.calls ++
          [{ moraf := i, callback := m.callback,
             payload := (doc.query m.element m.selector).filter
               fun x => decide (x ∉ m.processed) }]) ∧
    ((doc.query m.element m.selector).filter (fun x => decide (x ∉ m.processed)) = [] →
      m.onMutate doc = { moraf := m, fired := none, threw := false } ∧
      ∀ (s : State) (i : Nat), s.allMorafs[i]? = some m → (evalMoraf doc i s).1 = s) := by
  have hcode : m.onMutate doc = createReference doc m := by
    unfold Moraf.onMutate createReference
    simp only [h, filter_contains_eq]
    cases hR : (doc.query m.element m.selector).filter fun x => decide (x ∉ m.processed) with
    | nil => simp
    | cons x xs =>
        cases hm : m.multi with
        | none => simp [notMulti]
        | some b => cases b <;> simp [notMulti]
  refine ⟨hcode, ?_, ?_⟩
  · intro hR
    rw [hcode]
    unfold createReference
    cases hR1 : (doc.query m.element m.selector).filter fun x => decide (x ∉ m.processed) with
    | nil => exact absurd hR1 hR
    | cons x xs =>
        refine ⟨rfl, rfl, ?_, ?_⟩
        · cases hm : m.multi with
          | none => simp
          | some b => cases b <;> simp
        · intro s i hs
          rw [evalMoraf_eq doc i s m hs, hcode]
          simp only [createReference, hR1, callsOf]
  · intro hR
    have hnone : m.onMutate doc = { moraf := m, fired := none, threw := false } := by
      rw [hcode]
      simp only [createReference, hR]
    refine ⟨hnone, ?_⟩
    intro s i hs
    rw [evalMoraf_eq doc i s m hs, hnone]
    simp only [callsOf, List.append_nil]
    have : s.allMorafs.set i m = s.allMorafs := by
      apply List.ext_getElem?
      intro j
      rw [List.getElem?_set]
      split_ifs with hij hlt
      · subst hij; exact hs.symm
      · subst hij; exact (List.getElem?_eq_none (by omega)).symm
      · rfl
    rw [this]

/-- C11, at a concrete input: the scenario of the specification gives two
invocations, with 2 and then 3 nodes, and a processed set of size 5; and the
first evaluation after the insertion is the reference definition. -/
theorem create_evaluation_is_reference_witness :
    (run true {} createScenario).calls =
      [{ moraf := 0, callback := 7, payload := [1, 2] },
       { moraf := 0, callback := 7, payload := [3, 4, 5] }] ∧
    (run true {} createScenario).allMorafs.map (fun m => (m.processed.length, m.active)) =
      [(5, true)] ∧
    (Moraf.ofData (containerDoc []) (Factory.create ".item" 0 7 none)).onMutate
        (containerDoc [1, 2]) =
      createReference (containerDoc [1, 2])
        (Moraf.ofData (containerDoc []) (Factory.create ".item" 0 7 none)) :=
  ⟨by decide, by decide,
    (create_evaluation_is_reference
      (Moraf.ofData (containerDoc []) (Factory.create ".item" 0 7 none))
      (containerDoc [1, 2]) rfl).1⟩

/-! ## The snapshot of an attribute-change request -/

theorem attributeMap_get_set (map : AttributeMap) (name key : String) (value : Entry) :
    (map.set name value).get key = if key = name then value else map.get key := by
  unfold AttributeMap.set AttributeMap.get
  rw [List.lookup_cons]
  by_cases h : key = name
  · subst h; simp
  · have : (key == name) = false := by simpa using h
    simp [this, h]

theorem foldl_get (doc : Doc) (element : Node) (names : List String) (key : String) :
    ∀ acc : AttributeMap,
      (names.foldl
        (fun map name =>
          if name = "href" ∧ hrefTruthy (doc.href element) = true then
            map.set name (hrefEntry doc element)
          else map.set name (attrEntry doc element name))
        acc).get key =
      if key ∈ names then currentValue doc element key else acc.get key := by
  induction names with
  | nil => intro acc; simp
  | cons name rest ih =>
      intro acc
      rw [List.foldl_cons, ih]
      by_cases hk : key ∈ rest
      · simp [hk]
      · by_cases hn : key = name
        · subst hn
          simp only [hk, if_false, List.mem_cons, true_or, if_true]
          unfold currentValue
          split_ifs <;> simp [attributeMap_get_set]
        · simp only [hk, if_false, List.mem_cons, hn, false_or]
          split_ifs <;> simp [attributeMap_get_set, hn]

/-- The snapshot `getAttributeMap` takes holds, for every watched attribute,
the entry read from the document. -/
theorem getAttributeMap_get (doc : Doc) (element : Node) (names : List String) (key : String)
    (hel : doc.hasAttributes element = true) (hk : key ∈ names) :
    (getAttributeMap doc element names).get key = currentValue doc element key := by
  unfold getAttributeMap
  rw [if_pos hel, foldl_get]
  simp [hk]

theorem onMutate_change_snapshot (doc : Doc) (m : Moraf) (h : m.type = .change) :
    ((m.onMutate doc).threw = false →
      (m.onMutate doc).moraf.attributeMap = getAttributeMap doc m.element m.attributes) ∧
    ((m.onMutate doc).threw = true → m.onMutate doc = { moraf := m, fired := none, threw := true }) := by
  unfold Moraf.onMutate
  simp only [h]
  generalize scanAttributes _ _ _ _ _ = sc
  cases sc <;> simp

/-- C12, the code at the failing inputs, for the request
`Moraf.change(node1, 'class', 'active', callback7, false)`. The snapshot holds
the `Attr` node of `class`, not its value, and `setAttribute` keeps that node:
in the scenario of the specification (`"x"`, `"y"`, `"active y"`, `"active"`)
no evaluation sees a difference, the callback is never invoked and the request
stays active. When the attribute is removed, the new entry is `undefined`, it
differs from the node in the snapshot, and `newValue.indexOf` throws: the
evaluation does not complete, the snapshot is left as it was, and the frame
callback is aborted before its second loop, so the group stays paused. When the
attribute is added to a node that had none at registration, the new entry is an
`Attr` node, which has no `indexOf`: the evaluation throws as well. -/
theorem removed_attribute_aborts_evaluation :
    (exampleDoc "" "" "x" "").attr 1 "class" = some { id := 3, value := "x" } ∧
    (exampleDoc "" "" "active y" "").attr 1 "class" = some { id := 3, value := "active y" } ∧
    classWatch.attributeMap.get "class" = .attrNode 3 ∧
    (classWatch.onMutate (exampleDoc "" "" "active y" "")).fired = none ∧
    (run true {} classScenario).rafCount = 3 ∧
    (run true {} classScenario).calls = [] ∧
    (run true {} classScenario).allMorafs.map
      (fun m => (m.attributeMap.get "class", m.active)) = [(.attrNode 3, true)] ∧
    removedDoc.attr 1 "class" = none ∧
    classWatch.onMutate removedDoc = { moraf := classWatch, fired := none, threw := true } ∧
    (frameCallback true (fun _ => removedDoc) (run true {} (classRemovedTrace.take 2))).2 = true ∧
    (run true {} classRemovedTrace).allMorafs.map
      (fun m => (m.attributeMap.get "class", m.active)) = [(.attrNode 3, true)] ∧
    (run true {} classRemovedTrace).allManagers.map
      (fun g => (g.active, g.observer.map (Observer.live true))) = [(false, some false)] ∧
    classWatchNoClass.attributeMap.get "class" = .undefined ∧
    classWatchNoClass.onMutate (exampleDoc "" "" "active" "") =
      { moraf := classWatchNoClass, fired := none, threw := true } := by
  decide

/-! ## Patterns as conditions -/

theorem onMutate_text_fired (m : Moraf) (doc : Doc) (h : m.type = .text) :
    (m.onMutate doc).fired ≠ none ↔
      (some (doc.textContent m.element) ≠ m.text ∧
        (m.conditions.truthy = false ∨
          jsIncludes (doc.textContent m.element) m.conditions.toJsString = true)) := by
  unfold Moraf.onMutate
  simp only [h]
  by_cases hc : some (doc.textContent m.element) ≠ m.text ∧
      (m.conditions.truthy = false ∨
        jsIncludes (doc.textContent m.element) m.conditions.toJsString = true)
  · rw [if_pos hc]
    exact ⟨fun _ => hc, fun _ => by simp⟩
  · rw [if_neg hc]
    exact ⟨fun hf => absurd rfl hf, fun hf => absurd hf hc⟩

/-- C13, the code at the failing inputs: a `RegExp` condition is handed to
`String.prototype.indexOf`, which converts it to the string `/source/flags` and
looks for that string. The text of node 1 goes from `"A"` to `"done"`, which
contains a match of `/done/`: the callback is not invoked. The `href` of a link
goes from `http://h/x` to `http://h/active`, which contains a match of
`/active/`: the callback is not invoked. It is invoked when the new value
contains the pattern's literal form, slashes included. In general a text
request with a `RegExp` condition, evaluated with a callback that is a
function, fires iff the text changed and contains the string
`/source/flags`. -/
theorem pattern_condition_is_literal_search :
    containsMatch "done" "" "done" = some true ∧
    (patternTextWatch.onMutate (exampleDoc "" "" "" "done")).fired = none ∧
    (patternTextWatch.onMutate (exampleDoc "" "" "" "done")).threw = false ∧
    (patternTextWatch.onMutate (exampleDoc "" "" "" "see /done/")).fired = some [1] ∧
    containsMatch "active" "" "http://h/active" = some true ∧
    patternLinkWatch.attributeMap.get "href" = .string "http://h/x" ∧
    (patternLinkWatch.onMutate (linkDoc "http://h/active" none)).fired = none ∧
    (patternLinkWatch.onMutate (linkDoc "http://h/active" none)).threw = false ∧
    (patternLinkWatch.onMutate (linkDoc "http://h/is/active/now" none)).fired = some [1] ∧
    (∀ (m : Moraf) (doc : Doc) (source flags : String), m.type = .text →
      m.conditions = .single (.regExp source flags) →
      ((m.onMutate doc).fired ≠ none ↔
        (some (doc.textContent m.element) ≠ m.text ∧
          jsIncludes (doc.textContent m.element) ("/" ++ source ++ "/" ++ flags) = true))) := by
  refine ⟨by decide, by decide, by decide, by decide, by decide, by decide, by decide,
    by decide, by decide, ?_⟩
  intro m doc source flags h hc
  rw [onMutate_text_fired m doc h, hc]
  simp [Conditions.truthy, Cond.truthy, Conditions.toJsString, Cond.toJsString]

/-! ## Attaching a request to a node without a group -/

theorem regEval_create (doc : Doc) (data : MorafData) (h : data.type = .create) :
    (regEval doc (Moraf.ofData doc data)).moraf.processed =
      doc.query data.element data.selector ∧
    (regEval doc (Moraf.ofData doc data)).fired =
      (if doc.query data.element data.selector = [] then none
        else some (doc.query data.element data.selector)) ∧
    ((regEval doc (Moraf.ofData doc data)).moraf.active = true ↔
      (doc.query data.element data.selector = [] ∨ data.multi = some true)) := by
  have ht : (Moraf.ofData doc data).type = .create := h
  unfold regEval
  rw [if_pos ht]
  unfold Moraf.onMutate
  simp only [ht]
  have hf : (List.filter (fun x => !(Moraf.ofData doc data).processed.contains x)
      (doc.query (Moraf.ofData doc data).element (Moraf.ofData doc data).selector)) =
      doc.query data.element data.selector := by
    simp [Moraf.ofData]
  rw [hf]
  by_cases hq : doc.query data.element data.selector = []
  · simp [hq, Moraf.ofData]
  · have hl : (doc.query data.element data.selector).length ≠ 0 := by
      simpa [List.length_eq_zero] using hq
    rw [if_pos hl]
    simp only [hq, if_false, false_or]
    refine ⟨by simp [Moraf.ofData], trivial, ?_⟩
    cases hm : data.multi with
    | none => simp [Moraf.ofData, notMulti, hm]
    | some b => cases b <;> simp [Moraf.ofData, notMulti, hm]

theorem regEval_not_create (doc : Doc) (data : MorafData) (h : data.type ≠ .create) :
    regEval doc (Moraf.ofData doc data) =
      { moraf := Moraf.ofData doc data, fired := none, threw := false } := by
  have ht : (Moraf.ofData doc data).type ≠ .create := h
  unfold regEval
  rw [if_neg ht]

/-- C14: constructing a request on a node that has no manager appends the
request and a new manager for the node that holds it. A creation request is
evaluated first, on its empty processed set: if the node has descendants
matching the selector, all of them are handed to the callback in one
invocation during registration. The manager is then active, and has an
observer, iff the request is still active, and that observer is running; so a
fire-once creation request that found matches leaves its manager inactive with
no observer, and any other request leaves it active and observing. -/
theorem attach_to_new_group (native : Bool) (doc : Doc) (data : MorafData) (s : State)
    (h : findManager data.element s.allManagers = none) :
    ∃ (m : Moraf) (g : MorafManager),
      (Moraf.new native doc data s).allMorafs = s.allMorafs ++ [m] ∧
      (Moraf.new native doc data s).allManagers = s.allManagers ++ [g] ∧
      m.manager = some s.allManagers.length ∧
      g.element = data.element ∧ g.morafs = [s.allMorafs.length] ∧
      g.active = m.active ∧ g.observer.isSome = m.active ∧
      (∀ o, g.observer = some o → o.live native = true) ∧
      (data.type = .create →
        m.processed = doc.query data.element data.selector ∧
        (Moraf.new native doc data s).calls = s.calls ++
          (if doc.query data.element data.selector = [] then []
            else [{ moraf := s.allMorafs.length, callback := data.callback,
                    payload := doc.query data.element data.selector }]) ∧
        (m.active = true ↔ (doc.query data.element data.selector = [] ∨ data.multi = some true))) ∧
      (data.type ≠ .create →
        m.active = true ∧ (Moraf.new native doc data s).calls = s.calls) := by
  rw [new_none native doc data s h]
  refine ⟨_, _, rfl, rfl, rfl, rfl, rfl, rfl, ?_, ?_, ?_, ?_⟩
  · cases (regEval doc (Moraf.ofData doc data)).moraf.active <;> simp
  · intro o ho
    simp only at ho
    split_ifs at ho with ha
    · simp only [Option.some.injEq] at ho
      subst ho
      cases native <;> simp [Observer.observe, Observer.live]
  · intro hc
    obtain ⟨h1, h2, h3⟩ := regEval_create doc data hc
    refine ⟨h1, ?_, h3⟩
    simp only [h2]
    split_ifs <;> simp [callsOf]
  · intro hc
    rw [regEval_not_create doc data hc]
    exact ⟨rfl, by simp [callsOf]⟩

/-- C14, at concrete inputs: a fire-once creation watch registered when nodes
1 and 2 already match delivers both at registration and leaves the new group
inactive with no observer; registered on the empty container it invokes
nothing and the group is active and observing. -/
theorem attach_to_new_group_witness :
    (Moraf.new true (containerDoc [1, 2]) onceCreateData {}).calls =
      [{ moraf := 0, callback := 7, payload := [1, 2] }] ∧
    (Moraf.new true (containerDoc [1, 2]) onceCreateData {}).allManagers.map
      (fun g => (g.element, g.morafs, g.active, g.observer)) = [(0, [0], false, none)] ∧
    (Moraf.new true (containerDoc []) onceCreateData {}).calls = [] ∧
    (Moraf.new true (containerDoc []) onceCreateData {}).allManagers.map
      (fun g => (g.element, g.morafs, g.active, g.observer.map (Observer.live true))) =
      [(0, [0], true, some true)] ∧
    ∃ (m : Moraf) (g : MorafManager),
      (Moraf.new true (containerDoc [1, 2]) onceCreateData {}).allMorafs =
        ({} : State).allMorafs ++ [m] ∧
      (Moraf.new true (containerDoc [1, 2]) onceCreateData {}).allManagers =
        ({} : State).allManagers ++ [g] ∧
      m.manager = some ({} : State).allManagers.length ∧
      g.element = onceCreateData.element ∧ g.morafs = [({} : State).allMorafs.length] ∧
      g.active = m.active ∧ g.observer.isSome = m.active ∧
      (∀ o, g.observer = some o → o.live true = true) ∧
      (onceCreateData.type = .create →
        m.processed = (containerDoc [1, 2]).query onceCreateData.element onceCreateData.selector ∧
        (Moraf.new true (containerDoc [1, 2]) onceCreateData {}).calls = ({} : State).calls ++
          (if (containerDoc [1, 2]).query onceCreateData.element onceCreateData.selector = []
            then []
            else [{ moraf := ({} : State).allMorafs.length, callback := onceCreateData.callback,
                    payload := (containerDoc [1, 2]).query onceCreateData.element
                      onceCreateData.selector }]) ∧
        (m.active = true ↔
          ((containerDoc [1, 2]).query onceCreateData.element onceCreateData.selector = [] ∨
            onceCreateData.multi = some true))) ∧
      (onceCreateData.type ≠ .create →
        m.active = true ∧
        (Moraf.new true (containerDoc [1, 2]) onceCreateData {}).calls = ({} : State).calls) :=
  ⟨by decide, by decide, by decide, by decide,
    attach_to_new_group true (containerDoc [1, 2]) onceCreateData {} rfl⟩

/-! ## The fallback handle -/

/-- C15, the code at the failing input: on the fallback path `observe` stores
the id of the new interval in `this.observer` over the id of an interval that
is still running, and `disconnect` clears only the interval whose id is stored.
After start, start, stop the first interval is still live; a second stop
changes nothing, so it stays live. A handle started once is stopped by one
stop. In the registry: a second request attached to a node whose group is
observing calls `observe` again (`add`), and after the notification that
pauses the group its handle still has a live interval. -/
theorem restarted_handle_keeps_a_timer :
    (Observer.calls false [.start, .stop]).1.timers = [] ∧
    (Observer.calls false [.start, .start]).1.timers = [2, 1] ∧
    (Observer.calls false [.start, .start, .stop]).1.timers = [1] ∧
    (Observer.calls false [.start, .start, .stop]).1.live false = true ∧
    Observer.calls false [.start, .start, .stop, .stop] =
      Observer.calls false [.start, .start, .stop] ∧
    (run false {} (sharedNodeTrace.take 2)).allManagers.map
      (fun g => (g.element, g.morafs, g.active, g.observer.map fun o => o.timers)) =
      [(1, [0, 1], true, some [2, 1])] ∧
    (run false {} sharedNodeTrace).allManagers.map
      (fun g => (g.element, g.morafs, g.active, g.observer.map fun o => o.timers)) =
      [(1, [0, 1], false, some [1])] ∧
    (run false {} sharedNodeTrace).allManagers.map
      (fun g => g.observer.map (Observer.live false)) = [some true] := by
  decide

/-! ## Handles are never missing -/

theorem resumeAll_ok (native : Bool) (gs : List MorafManager) :
    ∀ ids, (∀ g ∈ gs, g.active = true → g.observer.isSome = true) →
      (resumeAll native gs ids).2.2 = false := by
  induction gs with
  | nil => intro ids _; rfl
  | cons g gs ih =>
      intro ids h
      have ih1 := fun ids1 => ih ids1 fun g1 hg1 => h g1 (List.mem_cons_of_mem _ hg1)
      rw [resumeAll]
      by_cases ha : g.active = true
      · have ho := h g (List.mem_cons_self _ _) ha
        simp only [ha, if_true]
        cases hobs : g.observer with
        | none => simp [hobs] at ho
        | some o => exact ih1 _
      · simp only [ha]
        exact ih1 _

theorem passStep_threw {s : State} (inv : Inv s) (docs : Nat → Doc) (i : Nat)
    (h : (passStep docs i s).2 = true) :
    ∃ m : Moraf, m.type = .change ∧ m.active = true ∧ (m.onMutate (docs i)).threw = true := by
  unfold passStep at h
  cases hm : s.allMorafs[i]? with
  | none => simp [hm] at h
  | some m =>
      simp only [hm] at h
      by_cases hact : m.active = true
      · simp only [hact, if_true] at h
        have inv1 := inv.evalKept (docs i) i m hm hact
        have hev := evalMoraf_eq (docs i) i s m hm
        have hthrew : (m.onMutate (docs i)).threw = true := by
          by_cases ht : (evalMoraf (docs i) i s).2 = true
          · rw [hev] at ht; exact ht
          · simp only [ht] at h
            cases hm1 : (evalMoraf (docs i) i s).1.allMorafs[i]? with
            | none => simp only [hm1] at h; exact absurd h ht
            | some m1 =>
                simp only [hm1] at h
                by_cases hact1 : m1.active = true
                · simp only [hact1, if_true] at h
                  obtain ⟨k, g, hk, _⟩ := inv1.groups.owner i m1 hm1
                  simp [hk] at h
                · simp only [hact1] at h
                  exact absurd h ht
        refine ⟨m, ?_, hact, hthrew⟩
        by_contra hne
        have : (m.onMutate (docs i)).threw = false := by
          unfold Moraf.onMutate
          cases hty : m.type with
          | create => simp only; split_ifs <;> rfl
          | change => exact absurd hty hne
          | text => simp only; split_ifs <;> rfl
          | other name => rfl
        rw [this] at hthrew
        exact absurd hthrew (by simp)
      · simp [hact] at h

theorem passLoop_threw (docs : Nat → Doc) (is : List Nat) :
    ∀ {s : State}, Inv s → (passLoop docs is s).2 = true →
      ∃ (i : Nat) (m : Moraf), m.type = .change ∧ m.active = true ∧
        (m.onMutate (docs i)).threw = true := by
  induction is with
  | nil => intro s _ h; simp [passLoop] at h
  | cons i is ih =>
      intro s inv h
      unfold passLoop at h
      simp only at h
      by_cases ht : (passStep docs i s).2 = true
      · exact ⟨i, passStep_threw inv docs i ht⟩
      · simp only [ht] at h
        exact ih (inv.passStep docs i) h

/-- As long as every callback is a function that leaves the watch system
alone and every construction returns (the runs of `run`), every active manager
has an observer, and every active request points at a manager of the registry
that holds it and has an observer. Hence a notification does not throw (no
`disconnect` on a missing observer), the second loop of a frame callback does
not throw (no `observe` on a missing observer), and a frame callback throws
only when the evaluation of an attribute-change request does. -/
theorem active_groups_own_a_handle (native : Bool) (es : List Event) :
    (∀ g ∈ (run native {} es).allManagers, g.active = true → g.observer.isSome = true) ∧
    (∀ (i : Nat) (m : Moraf), (run native {} es).allMorafs[i]? = some m → m.active = true →
      ∃ (k : Nat) (g : MorafManager), m.manager = some k ∧
        (run native {} es).allManagers[k]? = some g ∧ i ∈ g.morafs ∧
        g.observer.isSome = true) ∧
    (MorafManager.onMutate native (run native {} es)).2 = false ∧
    (∀ docs : Nat → Doc,
      (resumeAll native
        (passLoop docs (List.range (run native {} es).allMorafs.length)
          (run native {} es)).1.allManagers
        (passLoop docs (List.range (run native {} es).allMorafs.length)
          (run native {} es)).1.timerIds).2.2 = false ∧
      ((frameCallback native docs (run native {} es)).2 = true →
        ∃ (i : Nat) (m : Moraf), m.type = .change ∧ m.active = true ∧
          (m.onMutate (docs i)).threw = true)) := by
  have inv := Inv.run native es Inv.init
  refine ⟨inv.groups.handle, ?_, ?_, ?_⟩
  · intro i m hm hact
    obtain ⟨k, g, h1, h2, _, h4, h5⟩ := inv.groups.owner i m hm
    exact ⟨k, g, h1, h2, h4, h5 hact⟩
  · unfold MorafManager.onMutate
    simp [pauseAll_ok native _ inv.groups.handle]
  · intro docs
    constructor
    · exact resumeAll_ok native _ _
        (Inv.passLoop docs (List.range (run native {} es).allMorafs.length) inv).groups.handle
    · intro h
      unfold frameCallback at h
      simp only at h
      have inv0 : Inv { run native {} es with rafCount := (run native {} es).rafCount + 1 } :=
        ⟨inv.calls, inv.groups⟩
      by_cases ht : (passLoop docs (List.range (run native {} es).allMorafs.length)
          { run native {} es with rafCount := (run native {} es).rafCount + 1 }).2 = true
      · exact passLoop_threw docs _ inv0 ht
      · simp only [ht] at h
        have := resumeAll_ok native _
          (passLoop docs (List.range (run native {} es).allMorafs.length)
            { run native {} es with rafCount := (run native {} es).rafCount + 1 }).1.timerIds
          (Inv.passLoop docs (List.range (run native {} es).allMorafs.length) inv0).groups.handle
        simp [this] at h

/-! ## Callbacks that throw or construct requests -/

theorem onMutate_split (doc : Doc) (m : Moraf) :
    m.onMutate doc =
      match (m.untilCallback doc).fired with
      | some payload =>
          { moraf := Moraf.afterCallback doc (m.untilCallback doc).moraf
            fired := some payload
            threw := false }
      | none => m.untilCallback doc := by
  unfold Moraf.onMutate Moraf.untilCallback Moraf.afterCallback
  cases ht : m.type with
  | create => simp only; split_ifs <;> simp [ht]
  | change =>
      simp only
      generalize scanAttributes _ _ _ _ _ = sc
      cases sc <;> simp [ht]
  | text => simp only; split_ifs <;> simp [ht]
  | other name => simp

theorem evalMorafWith_inert (doc : Doc) (i : Nat) (s : State) :
    evalMorafWith doc Applied.inert i s = evalMoraf doc i s := by
  unfold evalMorafWith evalMoraf Applied.inert
  cases hm : s.allMorafs[i]? with
  | none => rfl
  | some m =>
      have hi : i < s.allMorafs.length := (List.getElem?_eq_some.mp hm).1
      simp only
      rw [onMutate_split doc m]
      cases hf : (m.untilCallback doc).fired with
      | none => simp [callsOf, hf]
      | some payload =>
          simp [updateAt, List.getElem?_set_self hi, List.set_set]

theorem onMutate_create_threw (doc : Doc) (m : Moraf) (h : m.type = .create) :
    (m.onMutate doc).threw = false := by
  unfold Moraf.onMutate
  simp only [h]
  split_ifs <;> rfl

theorem evalMoraf_create_flag (doc : Doc) (i : Nat) (s : State) (m : Moraf)
    (hm : s.allMorafs[i]? = some m) (h : m.type = .create) :
    (evalMoraf doc i s).2 = false := by
  unfold evalMoraf
  simp [hm, onMutate_create_threw doc m h]

theorem newWith_inert (native : Bool) (doc : Doc) (i : Nat) (s : State) :
    MorafManager.newWith native doc Applied.inert i s = (MorafManager.new native doc i s, false) := by
  unfold MorafManager.newWith MorafManager.new
  cases hm : s.allMorafs[i]? with
  | none => rfl
  | some m0 =>
      simp only [evalMorafWith_inert]
      by_cases ht : m0.type = .create
      · simp only [ht, if_true, evalMoraf_create_flag doc i s m0 hm ht]
        cases hm1 : (evalMoraf doc i s).1.allMorafs[i]? with
        | none =>
            simp only [Bool.false_eq_true, if_false]
            exact Prod.ext rfl (evalMoraf_create_flag doc i s m0 hm ht)
        | some m => simp
      · simp only [ht, if_false]
        simp [hm]

theorem addWith_inert (native : Bool) (doc : Doc) (k i : Nat) (s : State) :
    MorafManager.addWith native doc Applied.inert k i s =
      (MorafManager.add native doc k i s, false) := by
  unfold MorafManager.addWith MorafManager.add
  cases hm : s.allMorafs[i]? with
  | none => rfl
  | some m0 =>
      simp only [evalMorafWith_inert]
      by_cases ht : m0.type = .create
      · simp only [ht, if_true, evalMoraf_create_flag doc i s m0 hm ht]
        simp only [Bool.false_eq_true, if_false]
        split <;> [rfl; (split <;> rfl)]
      · simp only [ht, if_false]
        simp only [Bool.false_eq_true, if_false]
        split <;> [rfl; (split <;> rfl)]

theorem new_allManagers_length (native : Bool) (doc : Doc) (i : Nat) (s : State) (m : Moraf)
    (hm : s.allMorafs[i]? = some m) :
    (MorafManager.new native doc i s).allManagers.length = s.allManagers.length + 1 := by
  have hi : i < s.allMorafs.length := (List.getElem?_eq_some.mp hm).1
  unfold MorafManager.new
  simp only [hm]
  by_cases ht : m.type = .create
  · simp only [ht, if_true]
    have h1 : (evalMoraf doc i s).1.allMorafs[i]? = some (m.onMutate doc).moraf := by
      unfold evalMoraf
      simp [hm, List.getElem?_set_self hi]
    have h2 : (evalMoraf doc i s).1.allManagers = s.allManagers := by
      unfold evalMoraf
      simp [hm]
    simp [h1, h2]
  · simp [ht, hm]

theorem getManagerWith_inert (native : Bool) (doc : Doc) (i : Nat) (s : State) :
    Moraf.getManagerWith native doc Applied.inert i s =
      (Moraf.getManager native doc i s, false) := by
  unfold Moraf.getManagerWith Moraf.getManager
  cases hm : s.allMorafs[i]? with
  | none => rfl
  | some m =>
      simp only
      cases hf : findManager m.element s.allManagers with
      | some k => simp [addWith_inert]
      | none => simp [newWith_inert, new_allManagers_length native doc i s m hm]

/-- With a callback that leaves the watch system alone, the constructor
followed statement by statement does not throw and reaches the state
`Moraf.new` gives. -/
theorem moraf_newWith_inert (native : Bool) (doc : Doc) (data : MorafData) (s : State) :
    Moraf.newWith native doc Applied.inert data s = (Moraf.new native doc data s, false) := by
  unfold Moraf.newWith Moraf.new
  exact getManagerWith_inert native doc _ _

/-- C6, the code at the failing input: `Moraf.create('.a', callback7)` is
called in the empty registry while `document` has a descendant matching `.a`,
and `callback7` calls `Moraf.create('.b', callback8)`. The outer manager runs
the callback before it pushes itself onto `allManagers`, so the inner request
finds no manager for `document` and creates one: the call returns without
throwing and leaves two active managers for `document`, each with its own
live handle, and the two requests, on the same node, are owned by different
managers. The same on the fallback path. -/
theorem nested_create_makes_two_groups :
    (nestedCreate true).2 = false ∧
    (nestedCreate true).1.calls = [{ moraf := 0, callback := 7, payload := [1] }] ∧
    (nestedCreate true).1.allMorafs.map (fun m => (m.selector, m.element, m.active, m.manager)) =
      [(".a", 0, true, some 1), (".b", 0, true, some 0)] ∧
    (nestedCreate true).1.allManagers.map
      (fun g => (g.element, g.morafs, g.active, g.observer.map (Observer.live true))) =
      [(0, [1], true, some true), (0, [0], true, some true)] ∧
    ¬ ((nestedCreate true).1.allManagers.map fun g => g.element).Nodup ∧
    (nestedCreate false).2 = false ∧
    (nestedCreate false).1.allMorafs.map (fun m => (m.selector, m.element, m.active, m.manager)) =
      [(".a", 0, true, some 1), (".b", 0, true, some 0)] ∧
    (nestedCreate false).1.allManagers.map
      (fun g => (g.element, g.morafs, g.active, g.observer.map (Observer.live false))) =
      [(0, [1], true, some true), (0, [0], true, some true)] := by
  refine ⟨?_, ?_, ?_, ?_, ?_, ?_, ?_, ?_⟩ <;> decide

/-- C10, the code at the failing input: `Moraf.text(node1, /B/, callback)` is
called when the text of node 1 is `"A"`. The factory stores the `RegExp` as the
callback and the empty string as the condition; the construction does not
throw. The text becomes `"B"` and the request is evaluated: the text differs
and there is no condition, so the evaluation reaches `callback.apply`, which
throws, before `this.text = newText`. After the evaluation the request is
inactive, nothing was invoked, and the stored text is still `"A"` while the
text of the node is `"B"`. -/
theorem pattern_as_callback_keeps_old_text :
    (patternCallbackCreate true).2 = false ∧
    (patternCallbackCreate true).1.allMorafs.map
      (fun m => (m.type, m.element, m.text, m.active, m.manager)) =
      [(.text, 1, some "A", true, some 0)] ∧
    (patternCallbackCreate true).1.allMorafs.map (fun m => m.conditions) =
      [.single (.str "")] ∧
    (patternCallbackCreate true).1.allMorafs.map
      (fun m => (m.untilCallback (exampleDoc "" "" "" "B")).fired) = [some [1]] ∧
    (evalMorafWith (exampleDoc "" "" "" "B") .notCallable 0 (patternCallbackCreate true).1).2 =
      true ∧
    (evalMorafWith (exampleDoc "" "" "" "B") .notCallable 0
      (patternCallbackCreate true).1).1.allMorafs.map (fun m => (m.text, m.active)) =
      [(some "A", false)] ∧
    (evalMorafWith (exampleDoc "" "" "" "B") .notCallable 0
      (patternCallbackCreate true).1).1.calls = [] ∧
    (exampleDoc "" "" "" "B").textContent 1 = "B" := by
  refine ⟨?_, ?_, ?_, ?_, ?_, ?_, ?_, ?_⟩ <;> decide

/-- C16, the code at the failing input: after a text watch on node 1,
`Moraf.create('.item', '#box', callback)` is called while `#box`, node 2, has
the descendant 5 matching `.item`. The factory leaves `callback` undefined; the
request is pushed onto `allMorafs`, the evaluation inside the `MorafManager`
constructor reaches `callback.apply` and throws, so no manager is pushed and
`this.manager` is never assigned: the call throws and leaves an active request
with no manager. The next notification pauses the group of node 1. In the frame
callback the text watch stays active and marks its group active; the
evaluation of the broken request finds nothing new, and
`moraf.manager.active = true` throws. The second loop does not run: the group
of node 1 is active and its handle is stopped. The same on the fallback path. -/
theorem selector_parent_create_has_no_group :
    (selectorParentCreate true).2 = true ∧
    (selectorParentCreate true).1.calls = [] ∧
    (selectorParentCreate true).1.allMorafs.map
      (fun m => (m.type, m.element, m.active, m.processed, m.manager)) =
      [(.text, 1, true, [], some 0), (.create, 2, true, [5], none)] ∧
    (selectorParentCreate true).1.allManagers.map (fun g => (g.element, g.morafs, g.active)) =
      [(1, [0], true)] ∧
    (MorafManager.onMutate true (selectorParentCreate true).1).2 = false ∧
    (selectorParentCreate true).1.allMorafs.map
      (fun m => (m.untilCallback (lateDoc "A" [5])).fired) = [none, none] ∧
    (selectorParentPass true).2 = true ∧
    (selectorParentPass true).1.calls = [] ∧
    (selectorParentPass true).1.allMorafs.map (fun m => (m.element, m.active, m.manager)) =
      [(1, true, some 0), (2, true, none)] ∧
    (selectorParentPass true).1.allManagers.map
      (fun g => (g.element, g.active, g.observer.map (Observer.live true))) =
      [(1, true, some false)] ∧
    (selectorParentPass false).2 = true ∧
    (selectorParentPass false).1.allMorafs.map (fun m => (m.element, m.active, m.manager)) =
      [(1, true, some 0), (2, true, none)] ∧
    (selectorParentPass false).1.allManagers.map
      (fun g => (g.element, g.active, g.observer.map (Observer.live false))) =
      [(1, true, some false)] := by
  refine ⟨?_, ?_, ?_, ?_, ?_, ?_, ?_, ?_, ?_, ?_, ?_, ?_, ?_⟩ <;> decide

end FeScaffolding
